import Mathlib

set_option maxRecDepth 100000

/-!
Verification of the `goecs` sparse-set entity-component system.

The development shallowly embeds `src/goecs/goecs.go`:

* `SparseSet` mirrors the Go struct `SparseSet[T]` (fields `dense`,
  `components`, `sparse`); Go slices become Lean lists, the `*T` slots in
  `components` become stored values together with an explicit write-back
  operation `SparseSet.writeAt` that models an assignment through the
  pointer returned by `Get`.
* Machine integers: entity handles (`Goent`, Go `uint64`) are `Nat`;
  where a claim ranges over arbitrary 64-bit handles, so that Go's
  conversion `int(entity)` can go negative or overflow, the checked models
  `EmplaceChecked`, `GetChecked` and `RemoveChecked` perform the
  two's-complement conversion explicitly and return `Option` (`none` =
  runtime panic); they are proved to agree with the idealized operations
  on the non-overflowing range.
* The registry map `map[reflect.Type]SparseSetInterface` becomes a
  function `TypeKey → Option (SparseSet Val)`; reflective iteration works
  on a visitor descriptor (parameter-type list plus a body), following the
  source's checks line by line, and returns `Except String` where `Go`
  panics.
-/

/-- Entity id, Go `type Goent uint64`.  Handles are modelled as `Nat`;
the overflow-sensitive conversion `int(entity)` is modelled explicitly
where a claim depends on it. -/
abbrev Goent := Nat

/-- Component payload type used for the type-erased registry model.  The Go
code is parametric in `T` and never inspects component values, so a single
payload type instantiates it faithfully. -/
abbrev Val := Int

/-- Go `const invalidIndex = -1`. -/
def invalidIndex : Int := -1

/-- Go `const alignment = 256`. -/
def alignment : Nat := 256

/-- Go `nextAlignedCapacity` (for the non-overflowing `Nat` range). -/
def nextAlignedCapacity (n : Nat) : Nat :=
  if n % alignment = 0 then n else (n / alignment + 1) * alignment

/-! ### List access helpers

Go's slice indexing `l[i]` is total on in-bounds indices; we use an explicit
defaulted lookup `nth` and an optional lookup `nthOpt`, with the small lemma
kit proved by induction. -/

def nth {α : Type} : List α → Nat → α → α
  | [], _, d => d
  | a :: _, 0, _ => a
  | _ :: l, n + 1, d => nth l n d

def nthOpt {α : Type} : List α → Nat → Option α
  | [], _ => none
  | a :: _, 0 => some a
  | _ :: l, n + 1 => nthOpt l n

@[simp] theorem nth_nil {α : Type} (i : Nat) (d : α) : nth [] i d = d := rfl

@[simp] theorem nth_cons_zero {α : Type} (a : α) (l : List α) (d : α) :
    nth (a :: l) 0 d = a := rfl

@[simp] theorem nth_cons_succ {α : Type} (a : α) (l : List α) (i : Nat) (d : α) :
    nth (a :: l) (i + 1) d = nth l i d := rfl

theorem nth_default {α : Type} {l : List α} {i : Nat} (d : α)
    (h : l.length ≤ i) : nth l i d = d := by
  induction l generalizing i with
  | nil => rfl
  | cons a l ih =>
    cases i with
    | zero => simp at h
    | succ i => simpa using ih (by simpa using h)

theorem nth_append_left {α : Type} {l m : List α} {i : Nat} (d : α)
    (h : i < l.length) : nth (l ++ m) i d = nth l i d := by
  induction l generalizing i with
  | nil => simp at h
  | cons a l ih =>
    cases i with
    | zero => rfl
    | succ i => simpa using ih (by simpa using h)

theorem nth_append_right {α : Type} {l m : List α} {i : Nat} (d : α)
    (h : l.length ≤ i) : nth (l ++ m) i d = nth m (i - l.length) d := by
  induction l generalizing i with
  | nil => simp
  | cons a l ih =>
    cases i with
    | zero => simp at h
    | succ i =>
      have := ih (by simpa using h)
      simpa [Nat.succ_sub_succ] using this

theorem nth_replicate {α : Type} {n i : Nat} (a d : α) :
    nth (List.replicate n a) i d = if i < n then a else d := by
  induction n generalizing i with
  | zero => simp [nth_default]
  | succ n ih =>
    cases i with
    | zero => simp [List.replicate_succ]
    | succ i => simp [List.replicate_succ, ih, Nat.succ_lt_succ_iff]

theorem nth_set_self {α : Type} {l : List α} {i : Nat} (a d : α)
    (h : i < l.length) : nth (l.set i a) i d = a := by
  induction l generalizing i with
  | nil => simp at h
  | cons b l ih =>
    cases i with
    | zero => rfl
    | succ i => simpa [List.set] using ih (by simpa using h)

theorem nth_set_ne {α : Type} {l : List α} {i j : Nat} (a d : α)
    (h : i ≠ j) : nth (l.set i a) j d = nth l j d := by
  induction l generalizing i j with
  | nil => rfl
  | cons b l ih =>
    cases i with
    | zero =>
      cases j with
      | zero => exact absurd rfl h
      | succ j => rfl
    | succ i =>
      cases j with
      | zero => rfl
      | succ j => simpa [List.set] using ih (by omega)

theorem nth_take {α : Type} {l : List α} {i n : Nat} (d : α)
    (h : i < n) : nth (l.take n) i d = nth l i d := by
  induction l generalizing i n with
  | nil => simp
  | cons a l ih =>
    cases n with
    | zero => omega
    | succ n =>
      cases i with
      | zero => rfl
      | succ i => simpa using ih (by omega)

theorem nth_mem {α : Type} {l : List α} {i : Nat} (d : α)
    (h : i < l.length) : nth l i d ∈ l := by
  induction l generalizing i with
  | nil => simp at h
  | cons a l ih =>
    cases i with
    | zero => simp
    | succ i => exact List.mem_cons_of_mem _ (ih (by simpa using h))

theorem mem_iff_nth {α : Type} {l : List α} {a : α} (d : α) :
    a ∈ l ↔ ∃ i, i < l.length ∧ nth l i d = a := by
  constructor
  · intro h
    induction l with
    | nil => simp at h
    | cons b l ih =>
      rcases List.mem_cons.mp h with h | h
      · exact ⟨0, by simp [h]⟩
      · rcases ih h with ⟨i, hi, hn⟩
        exact ⟨i + 1, by simpa using hi, by simpa using hn⟩
  · rintro ⟨i, hi, rfl⟩
    exact nth_mem d hi

theorem nthOpt_eq_some {α : Type} {l : List α} {i : Nat} (d : α)
    (h : i < l.length) : nthOpt l i = some (nth l i d) := by
  induction l generalizing i with
  | nil => simp at h
  | cons a l ih =>
    cases i with
    | zero => rfl
    | succ i => simpa using ih (by simpa using h)

theorem nthOpt_eq_none {α : Type} {l : List α} {i : Nat}
    (h : l.length ≤ i) : nthOpt l i = none := by
  induction l generalizing i with
  | nil => rfl
  | cons a l ih =>
    cases i with
    | zero => simp at h
    | succ i => simpa using ih (by simpa using h)

theorem nthOpt_isSome {α : Type} {l : List α} {i : Nat} :
    (nthOpt l i).isSome = true ↔ i < l.length := by
  constructor
  · intro h
    by_contra hc
    rw [nthOpt_eq_none (by omega)] at h
    simp at h
  · intro h
    rw [nthOpt_eq_some (i := i) (nth l i (by
      cases l with
      | nil => simp at h
      | cons a _ => exact a)) h]
    rfl

theorem nodup_of_nth_inj {α : Type} {l : List α} (d : α)
    (h : ∀ i j, i < l.length → j < l.length → nth l i d = nth l j d → i = j) :
    l.Nodup := by
  induction l with
  | nil => simp
  | cons a l ih =>
    refine List.nodup_cons.mpr ⟨?_, ?_⟩
    · intro hmem
      rcases (mem_iff_nth d).mp hmem with ⟨i, hi, hn⟩
      have : i + 1 = 0 := h (i + 1) 0 (by simpa using hi) (by simp) (by simpa using hn)
      simp at this
    · exact ih fun i j hi hj he =>
        Nat.succ_injective
          (h (i + 1) (j + 1) (by simpa using hi) (by simpa using hj) (by simpa using he))

/-! ### The sparse set, from `src/goecs/goecs.go` -/

/-- Go `SparseSet[T]`: `dense []Goent`, `components []*T`, `sparse []int`.
Component slots are stored by value here; writes through the slot pointer
are `SparseSet.writeAt`. -/
structure SparseSet (T : Type) where
  dense : List Goent
  components : List T
  sparse : List Int
  deriving Repr, DecidableEq

/-- Go `NewSparseSet[T]`: empty dense/components, sparse filled with
`invalidIndex` at the default aligned capacity. -/
def NewSparseSet (T : Type) : SparseSet T :=
  { dense := []
    components := []
    sparse := List.replicate alignment invalidIndex }

/-- Go `(*SparseSet[T]).Emplace`.  Grows `sparse` to the next aligned
capacity when the entity is beyond it (new slots `invalidIndex`, old entries
copied), then either overwrites the existing slot in place or appends to
`dense`/`components` and records the new index. -/
def SparseSet.Emplace {T : Type} (ss : SparseSet T) (entity : Goent) (comp : T) :
    SparseSet T :=
  let sp :=
    if ss.sparse.length ≤ entity then
      ss.sparse ++
        List.replicate (nextAlignedCapacity (entity + 1) - ss.sparse.length) invalidIndex
    else ss.sparse
  if nth sp entity invalidIndex ≠ invalidIndex then
    { ss with
      sparse := sp
      components := ss.components.set (nth sp entity invalidIndex).toNat comp }
  else
    { dense := ss.dense ++ [entity]
      components := ss.components ++ [comp]
      sparse := sp.set entity (ss.dense.length : Int) }

/-- Go `(*SparseSet[T]).Get`: `none` when the entity is beyond the sparse
capacity or its slot is `invalidIndex`, otherwise the stored component. -/
def SparseSet.Get {T : Type} (ss : SparseSet T) (entity : Goent) : Option T :=
  if ss.sparse.length ≤ entity ∨ nth ss.sparse entity invalidIndex = invalidIndex then
    none
  else
    nthOpt ss.components (nth ss.sparse entity invalidIndex).toNat

/-- Go `(*SparseSet[T]).Remove`: swap-with-last compaction.  Note the source
writes `sparse[lastEntity] = index` before `sparse[entity] = invalidIndex`,
which the composition order below preserves. -/
def SparseSet.Remove {T : Type} [Inhabited T] (ss : SparseSet T) (entity : Goent) :
    SparseSet T :=
  if ss.sparse.length ≤ entity ∨ nth ss.sparse entity invalidIndex = invalidIndex then
    ss
  else
    let index := (nth ss.sparse entity invalidIndex).toNat
    let lastIndex := ss.dense.length - 1
    let lastEntity := nth ss.dense lastIndex 0
    { dense := (ss.dense.set index lastEntity).take lastIndex
      components :=
        (ss.components.set index (nth ss.components lastIndex default)).take lastIndex
      sparse := (ss.sparse.set lastEntity (index : Int)).set entity invalidIndex }

/-- Go `(*SparseSet[T]).GetDense`. -/
def SparseSet.GetDense {T : Type} (ss : SparseSet T) : List Goent := ss.dense

/-- Models an assignment through the component pointer returned by
`Get`/`GetComponent` during iteration: `*p = v` updates the slot
`components[sparse[entity]]` in place. -/
def SparseSet.writeAt {T : Type} (ss : SparseSet T) (entity : Goent) (v : T) :
    SparseSet T :=
  { ss with components := ss.components.set (nth ss.sparse entity invalidIndex).toNat v }

/-- Structural invariant of a sparse set (spec section 3): dense and
components have equal length, `dense[i]` points back via `sparse`, and every
non-absent `sparse[e]` names the dense position holding `e`. -/
def SparseSet.WF {T : Type} (ss : SparseSet T) : Prop :=
  ss.components.length = ss.dense.length ∧
  (∀ i, i < ss.dense.length →
    nth ss.dense i 0 < ss.sparse.length ∧
    nth ss.sparse (nth ss.dense i 0) invalidIndex = (i : Int)) ∧
  (∀ e, e < ss.sparse.length → nth ss.sparse e invalidIndex ≠ invalidIndex →
    ∃ i, i < ss.dense.length ∧ (i : Int) = nth ss.sparse e invalidIndex ∧
      nth ss.dense i 0 = e)

instance {T : Type} [DecidableEq T] (ss : SparseSet T) : Decidable ss.WF := by
  unfold SparseSet.WF
  infer_instance

example : (NewSparseSet Int).WF := by decide
example : ((NewSparseSet Int).Emplace 3 7).Get 3 = some 7 := by decide
example : ((NewSparseSet Int).Emplace 3 7).Get 2 = none := by decide
example : (((NewSparseSet Int).Emplace 3 7).Remove 3).Get 3 = none := by decide
example : (((NewSparseSet Int).Emplace 3 7).Emplace 3 9).Get 3 = some 9 := by decide
example : ((NewSparseSet Int).Emplace 3 7).WF := by decide

/-! ### Case analysis of `Emplace` and invariant preservation -/

theorem le_nextAlignedCapacity (n : Nat) : n ≤ nextAlignedCapacity n := by
  simp only [nextAlignedCapacity, alignment]
  split <;> omega

theorem emplace_eq_overwrite {T : Type} (ss : SparseSet T) (entity : Goent) (v : T)
    (h1 : entity < ss.sparse.length)
    (h2 : nth ss.sparse entity invalidIndex ≠ invalidIndex) :
    ss.Emplace entity v =
      { ss with
        components := ss.components.set (nth ss.sparse entity invalidIndex).toNat v } := by
  unfold SparseSet.Emplace
  simp [Nat.not_le.mpr h1, h2]

theorem emplace_eq_append_nogrow {T : Type} (ss : SparseSet T) (entity : Goent) (v : T)
    (h1 : entity < ss.sparse.length)
    (h2 : nth ss.sparse entity invalidIndex = invalidIndex) :
    ss.Emplace entity v =
      { dense := ss.dense ++ [entity]
        components := ss.components ++ [v]
        sparse := ss.sparse.set entity (ss.dense.length : Int) } := by
  unfold SparseSet.Emplace
  simp [Nat.not_le.mpr h1, h2]

theorem grow_nth_lt {T : Type} (ss : SparseSet T) (entity : Goent) {i : Nat}
    (h : i < ss.sparse.length) :
    nth (ss.sparse ++
      List.replicate (nextAlignedCapacity (entity + 1) - ss.sparse.length) invalidIndex)
      i invalidIndex = nth ss.sparse i invalidIndex :=
  nth_append_left _ h

theorem grow_length {T : Type} (ss : SparseSet T) (entity : Goent)
    (h : ss.sparse.length ≤ entity) :
    (ss.sparse ++
      List.replicate (nextAlignedCapacity (entity + 1) - ss.sparse.length)
        invalidIndex).length = nextAlignedCapacity (entity + 1) := by
  have h2 := le_nextAlignedCapacity (entity + 1)
  simp [List.length_append, List.length_replicate]
  omega

theorem grow_nth_ge {T : Type} (ss : SparseSet T) (entity : Goent) {i : Nat}
    (hle : ss.sparse.length ≤ i) (hlt : i < nextAlignedCapacity (entity + 1)) :
    nth (ss.sparse ++
      List.replicate (nextAlignedCapacity (entity + 1) - ss.sparse.length) invalidIndex)
      i invalidIndex = invalidIndex := by
  rw [nth_append_right _ hle, nth_replicate]
  split <;> rfl

theorem emplace_eq_append_grow {T : Type} (ss : SparseSet T) (entity : Goent) (v : T)
    (h1 : ss.sparse.length ≤ entity) :
    ss.Emplace entity v =
      { dense := ss.dense ++ [entity]
        components := ss.components ++ [v]
        sparse :=
          (ss.sparse ++
            List.replicate (nextAlignedCapacity (entity + 1) - ss.sparse.length)
              invalidIndex).set entity (ss.dense.length : Int) } := by
  have hlt : entity < nextAlignedCapacity (entity + 1) :=
    Nat.lt_of_lt_of_le (Nat.lt_succ_self entity) (le_nextAlignedCapacity (entity + 1))
  have habs := grow_nth_ge ss entity h1 hlt
  unfold SparseSet.Emplace
  simp [h1, habs]

theorem wf_grow {T : Type} {ss : SparseSet T} (hwf : ss.WF) (k : Nat) :
    SparseSet.WF { ss with sparse := ss.sparse ++ List.replicate k invalidIndex } := by
  obtain ⟨hlen, hfwd, hbwd⟩ := hwf
  refine ⟨hlen, ?_, ?_⟩
  · intro i hi
    obtain ⟨hb, hs⟩ := hfwd i hi
    refine ⟨by simpa using Nat.lt_of_lt_of_le hb (by simp), ?_⟩
    simpa [nth_append_left _ hb] using hs
  · intro e he hne
    simp only at he hne ⊢
    by_cases hcase : e < ss.sparse.length
    · rw [nth_append_left _ hcase] at hne ⊢
      exact hbwd e hcase hne
    · exfalso
      apply hne
      rw [nth_append_right _ (Nat.le_of_not_lt hcase), nth_replicate]
      split <;> rfl

theorem wf_dense_inj {T : Type} {ss : SparseSet T} (hwf : ss.WF) {i j : Nat}
    (hi : i < ss.dense.length) (hj : j < ss.dense.length)
    (h : nth ss.dense i 0 = nth ss.dense j 0) : i = j := by
  obtain ⟨-, hfwd, -⟩ := hwf
  have h1 := (hfwd i hi).2
  have h2 := (hfwd j hj).2
  rw [h] at h1
  rw [h1] at h2
  exact_mod_cast h2

theorem wf_append_step {T : Type} (ss : SparseSet T) (entity : Goent) (v : T)
    (hwf : ss.WF) (hlt : entity < ss.sparse.length)
    (habs : nth ss.sparse entity invalidIndex = invalidIndex) :
    SparseSet.WF
      { dense := ss.dense ++ [entity]
        components := ss.components ++ [v]
        sparse := ss.sparse.set entity (ss.dense.length : Int) } := by
  obtain ⟨hlen, hfwd, hbwd⟩ := hwf
  have hdne : ∀ i, i < ss.dense.length → nth ss.dense i 0 ≠ entity := by
    intro i hi heq
    have := (hfwd i hi).2
    rw [heq, habs] at this
    simp [invalidIndex] at this
  refine ⟨by simp [hlen], ?_, ?_⟩
  · intro i hi
    simp only [List.length_append, List.length_cons, List.length_nil] at hi
    rcases Nat.lt_succ_iff_lt_or_eq.mp hi with hi | rfl
    · have hne := hdne i hi
      obtain ⟨hb, hs⟩ := hfwd i hi
      rw [nth_append_left _ hi]
      exact ⟨by simpa using hb, by rw [nth_set_ne _ _ (fun h => hne h.symm)]; exact hs⟩
    · rw [nth_append_right _ (Nat.le_refl _)]
      simp only [Nat.sub_self, nth_cons_zero]
      exact ⟨by simpa using hlt, by rw [nth_set_self _ _ hlt]⟩
  · intro e he hne
    simp only [List.length_set] at he
    by_cases hcase : e = entity
    · subst hcase
      refine ⟨ss.dense.length, by simp, ?_, ?_⟩
      · rw [nth_set_self _ _ hlt]
      · rw [nth_append_right _ (Nat.le_refl _)]
        simp
    · rw [nth_set_ne _ _ (fun h => hcase h.symm)] at hne ⊢
      obtain ⟨i, hi, hieq, hid⟩ := hbwd e he hne
      exact ⟨i, by simp; omega, hieq, by rw [nth_append_left _ hi]; exact hid⟩

theorem wf_overwrite {T : Type} (ss : SparseSet T) (idx : Nat) (v : T)
    (hwf : ss.WF) :
    SparseSet.WF { ss with components := ss.components.set idx v } := by
  obtain ⟨hlen, hfwd, hbwd⟩ := hwf
  exact ⟨by simpa using hlen, hfwd, hbwd⟩

/-- `Emplace` preserves the structural invariant. -/
theorem wf_emplace {T : Type} {ss : SparseSet T} (hwf : ss.WF)
    (entity : Goent) (v : T) : (ss.Emplace entity v).WF := by
  by_cases hlen : ss.sparse.length ≤ entity
  · rw [emplace_eq_append_grow ss entity v hlen]
    have hglen := grow_length ss entity hlen
    have hg := wf_grow hwf (nextAlignedCapacity (entity + 1) - ss.sparse.length)
    have hlt : entity < nextAlignedCapacity (entity + 1) :=
      Nat.lt_of_lt_of_le (Nat.lt_succ_self entity) (le_nextAlignedCapacity (entity + 1))
    have habs := grow_nth_ge ss entity hlen hlt
    have hlt2 : entity <
        (ss.sparse ++
          List.replicate (nextAlignedCapacity (entity + 1) - ss.sparse.length)
            invalidIndex).length := by
      rw [hglen]; exact hlt
    exact wf_append_step
      ⟨ss.dense, ss.components,
        ss.sparse ++
          List.replicate (nextAlignedCapacity (entity + 1) - ss.sparse.length)
            invalidIndex⟩
      entity v hg hlt2 habs
  · have hlt := Nat.lt_of_not_le hlen
    by_cases habs : nth ss.sparse entity invalidIndex = invalidIndex
    · rw [emplace_eq_append_nogrow ss entity v hlt habs]
      exact wf_append_step ss entity v hwf hlt habs
    · rw [emplace_eq_overwrite ss entity v hlt habs]
      exact wf_overwrite ss _ v hwf

theorem remove_eq_noop {T : Type} [Inhabited T] (ss : SparseSet T) (entity : Goent)
    (h : ss.sparse.length ≤ entity ∨ nth ss.sparse entity invalidIndex = invalidIndex) :
    ss.Remove entity = ss := by
  unfold SparseSet.Remove
  simp [h]

theorem remove_eq_swap {T : Type} [Inhabited T] (ss : SparseSet T) (entity : Goent)
    (h1 : entity < ss.sparse.length)
    (h2 : nth ss.sparse entity invalidIndex ≠ invalidIndex) :
    ss.Remove entity =
      { dense :=
          (ss.dense.set (nth ss.sparse entity invalidIndex).toNat
            (nth ss.dense (ss.dense.length - 1) 0)).take (ss.dense.length - 1)
        components :=
          (ss.components.set (nth ss.sparse entity invalidIndex).toNat
            (nth ss.components (ss.dense.length - 1) default)).take (ss.dense.length - 1)
        sparse :=
          (ss.sparse.set (nth ss.dense (ss.dense.length - 1) 0)
            ((nth ss.sparse entity invalidIndex).toNat : Int)).set entity invalidIndex } := by
  unfold SparseSet.Remove
  simp [Nat.not_le.mpr h1, h2]

/-- `Remove` preserves the structural invariant (including a removal of the
entity currently stored last in `dense`). -/
theorem wf_remove {T : Type} [Inhabited T] {ss : SparseSet T} (hwf : ss.WF)
    (entity : Goent) : (ss.Remove entity).WF := by
  by_cases hcase : ss.sparse.length ≤ entity ∨
      nth ss.sparse entity invalidIndex = invalidIndex
  · rw [remove_eq_noop ss entity hcase]
    exact hwf
  · push_neg at hcase
    obtain ⟨hlen, hne⟩ := hcase
    have hlt := hlen
    rw [remove_eq_swap ss entity hlt hne]
    obtain ⟨hlc, hfwd, hbwd⟩ := hwf
    obtain ⟨i, hi, hieq, hid⟩ := hbwd entity hlt hne
    have htn : (nth ss.sparse entity invalidIndex).toNat = i := by
      rw [← hieq]; simp
    rw [htn]
    set n := ss.dense.length with hn
    set li := n - 1 with hli
    set le := nth ss.dense li 0 with hle
    have hnpos : 0 < n := Nat.lt_of_le_of_lt (Nat.zero_le i) hi
    have hlilt : li < n := by omega
    have hle_lt : le < ss.sparse.length := (hfwd li hlilt).1
    have hle_sp : nth ss.sparse le invalidIndex = (li : Int) := (hfwd li hlilt).2
    have hent_sp : nth ss.sparse entity invalidIndex = (i : Int) := hieq.symm
    -- the new sparse lookup function
    have hsp_e : nth ((ss.sparse.set le (i : Int)).set entity invalidIndex) entity
        invalidIndex = invalidIndex := nth_set_self _ _ (by simpa using hlt)
    have hsp_le : le ≠ entity →
        nth ((ss.sparse.set le (i : Int)).set entity invalidIndex) le invalidIndex
          = (i : Int) := by
      intro hneq
      rw [nth_set_ne _ _ (fun h => hneq h.symm), nth_set_self _ _ hle_lt]
    have hsp_other : ∀ x, x ≠ entity → x ≠ le →
        nth ((ss.sparse.set le (i : Int)).set entity invalidIndex) x invalidIndex
          = nth ss.sparse x invalidIndex := by
      intro x hxe hxl
      rw [nth_set_ne _ _ (fun h => hxe h.symm), nth_set_ne _ _ (fun h => hxl h.symm)]
    -- the new dense lookup function
    have hd_len : ((ss.dense.set i le).take li).length = li := by
      simp [List.length_take, List.length_set]
      omega
    have hd_at : ∀ j, j < li →
        nth ((ss.dense.set i le).take li) j 0 =
          if j = i then le else nth ss.dense j 0 := by
      intro j hj
      rw [nth_take _ hj]
      by_cases hji : j = i
      · subst hji
        rw [nth_set_self _ _ (by omega)]
        simp
      · rw [nth_set_ne _ _ (fun h => hji h.symm), if_neg hji]
    refine ⟨?_, ?_, ?_⟩
    · simp [List.length_take, List.length_set]
      omega
    · intro j hj
      rw [hd_len] at hj
      rw [hd_at j hj]
      by_cases hji : j = i
      · rw [if_pos hji]
        have hlene : le ≠ entity := by
          intro h
          rw [h, hent_sp] at hle_sp
          have : i = li := by exact_mod_cast hle_sp
          omega
        constructor
        · simpa [List.length_set] using hle_lt
        · rw [hsp_le hlene, hji]
      · rw [if_neg hji]
        have hjn : j < n := by omega
        have hxe : nth ss.dense j 0 ≠ entity := by
          intro h
          exact hji (wf_dense_inj ⟨hlc, hfwd, hbwd⟩ hjn hi (h.trans hid.symm))
        have hxl : nth ss.dense j 0 ≠ le := by
          intro h
          have : j = li := wf_dense_inj ⟨hlc, hfwd, hbwd⟩ hjn hlilt h
          omega
        constructor
        · simpa [List.length_set] using (hfwd j hjn).1
        · rw [hsp_other _ hxe hxl]
          exact (hfwd j hjn).2
    · intro x hx hxne
      simp only [List.length_set] at hx
      by_cases hxe : x = entity
      · subst hxe
        exact absurd hsp_e hxne
      · by_cases hxl : x = le
        · subst hxl
          have hlene : le ≠ entity := hxe
          have hile : i ≠ li := by
            intro h
            apply hlene
            rw [hle, ← h]
            exact hid
          refine ⟨i, ?_, ?_, ?_⟩
          · rw [hd_len]; omega
          · rw [hsp_le hlene]
          · rw [hd_at i (by omega), if_pos rfl]
        · rw [hsp_other x hxe hxl] at hxne
          obtain ⟨j, hj, hjeq, hjd⟩ := hbwd x hx hxne
          have hji : j ≠ i := by
            intro h
            rw [h, hid] at hjd
            exact hxe hjd.symm
          have hjli : j ≠ li := by
            intro h
            rw [h, ← hle] at hjd
            exact hxl hjd.symm
          refine ⟨j, ?_, ?_, ?_⟩
          · rw [hd_len]; omega
          · rw [hsp_other x hxe hxl, ← hjeq]
          · rw [hd_at j (by omega), if_neg hji]
            exact hjd

/-! ### Lookup characterisation lemmas -/

theorem nthOpt_set_self {α : Type} {l : List α} {i : Nat} (a : α)
    (h : i < l.length) : nthOpt (l.set i a) i = some a := by
  rw [nthOpt_eq_some a (by simpa using h), nth_set_self _ _ h]

theorem nthOpt_set_ne {α : Type} {l : List α} {i j : Nat} (a : α)
    (h : i ≠ j) : nthOpt (l.set i a) j = nthOpt l j := by
  by_cases hj : j < l.length
  · rw [nthOpt_eq_some a (by simpa using hj), nthOpt_eq_some a hj,
      nth_set_ne _ _ h]
  · rw [nthOpt_eq_none (by simpa using Nat.le_of_not_lt hj),
      nthOpt_eq_none (Nat.le_of_not_lt hj)]

theorem nthOpt_append_len {α : Type} (l : List α) (v : α) :
    nthOpt (l ++ [v]) l.length = some v := by
  induction l with
  | nil => rfl
  | cons a l ih => simpa using ih

theorem nthOpt_append_left {α : Type} {l m : List α} {j : Nat}
    (h : j < l.length) : nthOpt (l ++ m) j = nthOpt l j := by
  induction l generalizing j with
  | nil => simp at h
  | cons a l ih =>
    cases j with
    | zero => rfl
    | succ j => simpa using ih (by simpa using h)

theorem nthOpt_take {α : Type} {l : List α} {j n : Nat}
    (h : j < n) : nthOpt (l.take n) j = nthOpt l j := by
  induction l generalizing j n with
  | nil => simp
  | cons a l ih =>
    cases n with
    | zero => omega
    | succ n =>
      cases j with
      | zero => rfl
      | succ j => simpa using ih (by omega)

theorem get_new {T : Type} (entity : Goent) : (NewSparseSet T).Get entity = none := by
  unfold SparseSet.Get NewSparseSet
  rw [if_pos]
  by_cases h : entity < alignment
  · right
    simp only
    rw [nth_replicate, if_pos h]
  · left
    simpa using Nat.le_of_not_lt h

theorem wf_new (T : Type) : (NewSparseSet T).WF := by
  refine ⟨rfl, ?_, ?_⟩
  · intro i hi
    simp [NewSparseSet] at hi
  · intro e he hne
    exfalso
    apply hne
    simp only [NewSparseSet] at he ⊢
    rw [nth_replicate, if_pos (by simpa using he)]

theorem get_isSome_iff {T : Type} [Inhabited T] {ss : SparseSet T} (hwf : ss.WF)
    (entity : Goent) :
    (ss.Get entity).isSome = true ↔
      entity < ss.sparse.length ∧ nth ss.sparse entity invalidIndex ≠ invalidIndex := by
  obtain ⟨hlc, hfwd, hbwd⟩ := hwf
  unfold SparseSet.Get
  by_cases hcond : ss.sparse.length ≤ entity ∨
      nth ss.sparse entity invalidIndex = invalidIndex
  · rw [if_pos hcond]
    constructor
    · intro h
      simp at h
    · rintro ⟨h1, h2⟩
      exfalso
      rcases hcond with h | h
      · exact absurd h1 (Nat.not_lt.mpr h)
      · exact h2 h
  · rw [if_neg hcond]
    push_neg at hcond
    obtain ⟨h1, h2⟩ := hcond
    obtain ⟨i, hi, hieq, hid⟩ := hbwd entity h1 h2
    have htn : (nth ss.sparse entity invalidIndex).toNat = i := by
      rw [← hieq]; simp
    have hbound : i < ss.components.length := by omega
    rw [htn, nthOpt_eq_some default hbound]
    simp only [Option.isSome_some, true_iff]
    exact ⟨h1, h2⟩

/-- Under the invariant, presence of a component is membership in `dense`. -/
theorem get_isSome_iff_mem {T : Type} [Inhabited T] {ss : SparseSet T} (hwf : ss.WF)
    (entity : Goent) :
    (ss.Get entity).isSome = true ↔ entity ∈ ss.dense := by
  rw [get_isSome_iff hwf]
  obtain ⟨hlc, hfwd, hbwd⟩ := hwf
  constructor
  · rintro ⟨h1, h2⟩
    obtain ⟨i, hi, hieq, hid⟩ := hbwd entity h1 h2
    rw [← hid]
    exact nth_mem 0 hi
  · intro hmem
    rcases (mem_iff_nth 0).mp hmem with ⟨i, hi, hn⟩
    obtain ⟨hb, hs⟩ := hfwd i hi
    rw [← hn]
    refine ⟨hb, ?_⟩
    rw [hs]
    simp [invalidIndex]

theorem nodup_dense {T : Type} {ss : SparseSet T} (hwf : ss.WF) :
    ss.dense.Nodup :=
  nodup_of_nth_inj 0 fun i j hi hj he => wf_dense_inj hwf hi hj he

theorem natCast_ne_invalidIndex (n : Nat) : (n : Int) ≠ invalidIndex := by
  simp only [invalidIndex]
  omega

theorem get_of_append {T : Type} (d : List Goent) (c : List T) (sp : List Int)
    (e : Goent) (v : T) (hlen : c.length = d.length) (hsp : e < sp.length) :
    SparseSet.Get ⟨d ++ [e], c ++ [v], sp.set e (d.length : Int)⟩ e = some v := by
  unfold SparseSet.Get
  rw [if_neg]
  · simp only
    rw [nth_set_self _ _ hsp]
    simp only [Int.toNat_ofNat]
    rw [← hlen, nthOpt_append_len]
  · push_neg
    constructor
    · simpa using hsp
    · simp only
      rw [nth_set_self _ _ hsp]
      exact natCast_ne_invalidIndex _

/-- After `Emplace`, `Get` on the same entity returns the just-stored value. -/
theorem get_emplace_self {T : Type} [Inhabited T] {ss : SparseSet T} (hwf : ss.WF)
    (entity : Goent) (v : T) : (ss.Emplace entity v).Get entity = some v := by
  obtain ⟨hlc, hfwd, hbwd⟩ := hwf
  by_cases hlen : ss.sparse.length ≤ entity
  · rw [emplace_eq_append_grow ss entity v hlen]
    have hlt : entity < nextAlignedCapacity (entity + 1) :=
      Nat.lt_of_lt_of_le (Nat.lt_succ_self entity) (le_nextAlignedCapacity (entity + 1))
    exact get_of_append _ _ _ _ _ hlc (by rw [grow_length ss entity hlen]; exact hlt)
  · have hlt := Nat.lt_of_not_le hlen
    by_cases habs : nth ss.sparse entity invalidIndex = invalidIndex
    · rw [emplace_eq_append_nogrow ss entity v hlt habs]
      exact get_of_append _ _ _ _ _ hlc hlt
    · rw [emplace_eq_overwrite ss entity v hlt habs]
      obtain ⟨i, hi, hieq, hid⟩ := hbwd entity hlt habs
      have htn : (nth ss.sparse entity invalidIndex).toNat = i := by
        rw [← hieq]; simp
      unfold SparseSet.Get
      rw [if_neg (by push_neg; exact ⟨hlt, habs⟩)]
      simp only [htn]
      exact nthOpt_set_self v (by omega)

/-- `Emplace` on one entity leaves `Get` on any other entity unchanged. -/
theorem get_emplace_ne {T : Type} [Inhabited T] {ss : SparseSet T} (hwf : ss.WF)
    {e1 e2 : Goent} (hne : e2 ≠ e1) (v : T) :
    (ss.Emplace e1 v).Get e2 = ss.Get e2 := by
  obtain ⟨hlc, hfwd, hbwd⟩ := hwf
  by_cases hlen : ss.sparse.length ≤ e1
  · -- growth case
    rw [emplace_eq_append_grow ss e1 v hlen]
    have hglen := grow_length ss e1 hlen
    unfold SparseSet.Get
    simp only [List.length_set, hglen]
    by_cases h2big : nextAlignedCapacity (e1 + 1) ≤ e2
    · rw [if_pos (Or.inl h2big)]
      rw [if_pos (Or.inl (by
        have := le_nextAlignedCapacity (e1 + 1)
        omega))]
    · push_neg at h2big
      have hset : nth ((ss.sparse ++
          List.replicate (nextAlignedCapacity (e1 + 1) - ss.sparse.length)
            invalidIndex).set e1 (ss.dense.length : Int)) e2 invalidIndex =
          nth (ss.sparse ++
            List.replicate (nextAlignedCapacity (e1 + 1) - ss.sparse.length)
              invalidIndex) e2 invalidIndex :=
        nth_set_ne _ _ (fun h => hne h.symm)
      by_cases h2old : e2 < ss.sparse.length
      · rw [hset, grow_nth_lt ss e1 h2old]
        by_cases habs2 : nth ss.sparse e2 invalidIndex = invalidIndex
        · rw [if_pos (Or.inr habs2), if_pos (Or.inr habs2)]
        · rw [if_neg (by push_neg; exact ⟨h2big, habs2⟩),
            if_neg (by push_neg; exact ⟨h2old, habs2⟩)]
          obtain ⟨i, hi, hieq, hid⟩ := hbwd e2 h2old habs2
          have htn : (nth ss.sparse e2 invalidIndex).toNat = i := by
            rw [← hieq]; simp
          rw [htn, nthOpt_append_left (by omega)]
      · rw [hset, grow_nth_ge ss e1 (Nat.le_of_not_lt h2old) h2big]
        rw [if_pos (Or.inr rfl), if_pos (Or.inl (Nat.le_of_not_lt h2old))]
  · have hlt := Nat.lt_of_not_le hlen
    by_cases habs : nth ss.sparse e1 invalidIndex = invalidIndex
    · -- append without growth
      rw [emplace_eq_append_nogrow ss e1 v hlt habs]
      unfold SparseSet.Get
      simp only [List.length_set]
      have hset : nth (ss.sparse.set e1 (ss.dense.length : Int)) e2 invalidIndex =
          nth ss.sparse e2 invalidIndex := nth_set_ne _ _ (fun h => hne h.symm)
      rw [hset]
      by_cases hcond : ss.sparse.length ≤ e2 ∨ nth ss.sparse e2 invalidIndex = invalidIndex
      · rw [if_pos hcond, if_pos hcond]
      · rw [if_neg hcond, if_neg hcond]
        push_neg at hcond
        obtain ⟨h2old, habs2⟩ := hcond
        obtain ⟨i, hi, hieq, hid⟩ := hbwd e2 h2old habs2
        have htn : (nth ss.sparse e2 invalidIndex).toNat = i := by
          rw [← hieq]; simp
        rw [htn, nthOpt_append_left (by omega)]
    · -- overwrite
      rw [emplace_eq_overwrite ss e1 v hlt habs]
      unfold SparseSet.Get
      simp only
      by_cases hcond : ss.sparse.length ≤ e2 ∨ nth ss.sparse e2 invalidIndex = invalidIndex
      · rw [if_pos hcond, if_pos hcond]
      · rw [if_neg hcond, if_neg hcond]
        push_neg at hcond
        obtain ⟨h2old, habs2⟩ := hcond
        obtain ⟨i1, hi1, hieq1, hid1⟩ := hbwd e1 hlt habs
        obtain ⟨i2, hi2, hieq2, hid2⟩ := hbwd e2 h2old habs2
        have htn1 : (nth ss.sparse e1 invalidIndex).toNat = i1 := by
          rw [← hieq1]; simp
        have htn2 : (nth ss.sparse e2 invalidIndex).toNat = i2 := by
          rw [← hieq2]; simp
        have hij : i1 ≠ i2 := by
          intro h
          rw [h, hid2] at hid1
          exact hne hid1
        rw [htn1, htn2, nthOpt_set_ne _ hij]

/-- After `Remove`, the removed entity is absent (no invariant needed). -/
theorem get_remove_self {T : Type} [Inhabited T] (ss : SparseSet T) (entity : Goent) :
    (ss.Remove entity).Get entity = none := by
  by_cases hcase : ss.sparse.length ≤ entity ∨
      nth ss.sparse entity invalidIndex = invalidIndex
  · rw [remove_eq_noop ss entity hcase]
    unfold SparseSet.Get
    rw [if_pos hcase]
  · push_neg at hcase
    obtain ⟨hlen, hne⟩ := hcase
    rw [remove_eq_swap ss entity hlen hne]
    unfold SparseSet.Get
    rw [if_pos]
    right
    simp only
    exact nth_set_self _ _ (by simpa using hlen)

/-- `Remove` of one entity leaves `Get` on any other entity unchanged. -/
theorem get_remove_ne {T : Type} [Inhabited T] {ss : SparseSet T} (hwf : ss.WF)
    {e1 e2 : Goent} (hne : e2 ≠ e1) :
    (ss.Remove e1).Get e2 = ss.Get e2 := by
  by_cases hcase : ss.sparse.length ≤ e1 ∨
      nth ss.sparse e1 invalidIndex = invalidIndex
  · rw [remove_eq_noop ss e1 hcase]
  · push_neg at hcase
    obtain ⟨hlen, hne1⟩ := hcase
    rw [remove_eq_swap ss e1 hlen hne1]
    obtain ⟨hlc, hfwd, hbwd⟩ := hwf
    obtain ⟨i, hi, hieq, hid⟩ := hbwd e1 hlen hne1
    have htn : (nth ss.sparse e1 invalidIndex).toNat = i := by
      rw [← hieq]; simp
    rw [htn]
    set n := ss.dense.length with hn
    set li := n - 1 with hli
    set le := nth ss.dense li 0 with hle
    have hnpos : 0 < n := Nat.lt_of_le_of_lt (Nat.zero_le i) hi
    have hlilt : li < n := by omega
    have hle_lt : le < ss.sparse.length := (hfwd li hlilt).1
    have hle_sp : nth ss.sparse le invalidIndex = (li : Int) := (hfwd li hlilt).2
    unfold SparseSet.Get
    simp only [List.length_set, List.length_take]
    by_cases h2big : ss.sparse.length ≤ e2
    · rw [if_pos (Or.inl h2big), if_pos (Or.inl h2big)]
    · push_neg at h2big
      by_cases h2le : e2 = le
      · -- the swapped-in last entity keeps its component
        subst h2le
        have hile : i ≠ li := by
          intro h
          apply hne
          rw [hle, ← h]
          exact hid
        have hsp2 : nth ((ss.sparse.set le (i : Int)).set e1 invalidIndex) le
            invalidIndex = (i : Int) := by
          rw [nth_set_ne _ _ (fun h => hne h.symm), nth_set_self _ _ hle_lt]
        rw [if_neg (by push_neg; exact ⟨h2big, by rw [hsp2]; exact natCast_ne_invalidIndex i⟩),
          if_neg (by push_neg; exact ⟨h2big, by rw [hle_sp]; exact natCast_ne_invalidIndex li⟩)]
        rw [hsp2, hle_sp]
        simp only [Int.toNat_ofNat]
        rw [nthOpt_take (by omega), nthOpt_set_self _ (by omega),
          nthOpt_eq_some default (by omega)]
      · -- unrelated entity: both lookups agree
        have hsp2 : nth ((ss.sparse.set le (i : Int)).set e1 invalidIndex) e2
            invalidIndex = nth ss.sparse e2 invalidIndex := by
          rw [nth_set_ne _ _ (fun h => hne h.symm), nth_set_ne _ _ (fun h => h2le h.symm)]
        rw [hsp2]
        by_cases habs2 : nth ss.sparse e2 invalidIndex = invalidIndex
        · rw [if_pos (Or.inr habs2), if_pos (Or.inr habs2)]
        · rw [if_neg (by push_neg; exact ⟨h2big, habs2⟩),
            if_neg (by push_neg; exact ⟨h2big, habs2⟩)]
          obtain ⟨j, hj, hjeq, hjd⟩ := hbwd e2 h2big habs2
          have htn2 : (nth ss.sparse e2 invalidIndex).toNat = j := by
            rw [← hjeq]; simp
          have hji : j ≠ i := by
            intro h
            rw [h, hid] at hjd
            exact hne hjd.symm
          have hjli : j ≠ li := by
            intro h
            rw [h, ← hle] at hjd
            exact h2le hjd.symm
          rw [htn2, nthOpt_take (by omega), nthOpt_set_ne _ (fun h => hji h.symm)]

/-! ### Write-back through component pointers -/

theorem writeAt_sparse {T : Type} (ss : SparseSet T) (e : Goent) (v : T) :
    (ss.writeAt e v).sparse = ss.sparse := rfl

theorem writeAt_dense {T : Type} (ss : SparseSet T) (e : Goent) (v : T) :
    (ss.writeAt e v).dense = ss.dense := rfl

theorem writeAt_components_length {T : Type} (ss : SparseSet T) (e : Goent) (v : T) :
    (ss.writeAt e v).components.length = ss.components.length := by
  unfold SparseSet.writeAt
  simp

/-- Writing a component value in place never changes which entities are
present. -/
theorem get_isSome_writeAt {T : Type} (ss : SparseSet T) (e x : Goent) (v : T) :
    ((ss.writeAt e v).Get x).isSome = (ss.Get x).isSome := by
  unfold SparseSet.Get SparseSet.writeAt
  simp only
  by_cases hcond : ss.sparse.length ≤ x ∨ nth ss.sparse x invalidIndex = invalidIndex
  · rw [if_pos hcond, if_pos hcond]
  · rw [if_neg hcond, if_neg hcond]
    rcases Nat.lt_or_ge (nth ss.sparse x invalidIndex).toNat ss.components.length
        with h | h
    · rw [nthOpt_eq_some v (by simpa using h), nthOpt_eq_some v h]
      rfl
    · rw [nthOpt_eq_none (by simpa using h), nthOpt_eq_none h]

theorem wf_writeAt {T : Type} {ss : SparseSet T} (hwf : ss.WF) (e : Goent) (v : T) :
    (ss.writeAt e v).WF :=
  wf_overwrite ss _ v hwf

theorem remove_of_get_none {T : Type} [Inhabited T] {ss : SparseSet T} (hwf : ss.WF)
    {e : Goent} (h : ss.Get e = none) : ss.Remove e = ss := by
  apply remove_eq_noop
  by_contra hc
  push_neg at hc
  have : (ss.Get e).isSome = true := (get_isSome_iff hwf e).mpr hc
  rw [h] at this
  simp at this

/-! ### The registry, from `src/goecs/goecs.go`

The Go registry is `map[reflect.Type]SparseSetInterface`; `reflect.Type`
keys become abstract `TypeKey` tokens and the map becomes a function to
`Option`.  The Go code is generic over the component type and never
inspects values, so every storage is instantiated at the single payload
type `Val`. -/

abbrev TypeKey := Nat

def Registry := TypeKey → Option (SparseSet Val)

/-- Go `NewRegistry`: the empty storage map. -/
def NewRegistry : Registry := fun _ => none

/-- Go `RegisterComponent[T]`: builds a fresh sparse set and stores it under
the type key.  Note the source stores unconditionally (`r.storages[key] =
set`), without checking whether a set for the key already exists. -/
def RegisterComponent (r : Registry) (t : TypeKey) : Registry :=
  fun k => if k = t then some (NewSparseSet Val) else r k

/-- Go `EmplaceComponent[T]`: resolves the storage (creating it only when
missing) and emplaces into it. -/
def EmplaceComponent (r : Registry) (t : TypeKey) (entity : Goent) (v : Val) :
    Registry :=
  let storage :=
    match r t with
    | some s => s
    | none => NewSparseSet Val
  fun k => if k = t then some (storage.Emplace entity v) else r k

/-- Go `GetComponent[T]`. -/
def GetComponent (r : Registry) (t : TypeKey) (entity : Goent) : Option Val :=
  match r t with
  | none => none
  | some s => s.Get entity

/-- Go `RemoveComponent[T]`. -/
def RemoveComponent (r : Registry) (t : TypeKey) (entity : Goent) : Registry :=
  match r t with
  | none => r
  | some s => fun k => if k = t then some (s.Remove entity) else r k

/-- Go `getStorage[T]`. -/
def getStorage (r : Registry) (t : TypeKey) : Option (SparseSet Val) := r t

/-- All storages of a registry satisfy the sparse-set invariant. -/
def Registry.WF (r : Registry) : Prop :=
  ∀ t s, r t = some s → s.WF

/-! ### Operation sequences on a single entity and type (spec section 8) -/

/-- One `Emplace` or `Remove` on a fixed entity and component type. -/
inductive SSOp where
  | emplace (v : Val)
  | remove
  deriving Repr, DecidableEq

def applyOp (ss : SparseSet Val) (entity : Goent) : SSOp → SparseSet Val
  | .emplace v => ss.Emplace entity v
  | .remove => ss.Remove entity

def applyOps (ss : SparseSet Val) (entity : Goent) : List SSOp → SparseSet Val
  | [] => ss
  | op :: rest => applyOps (applyOp ss entity op) entity rest

/-- The observable component value dictated by the most recent operation
(`init` when no operation occurred). -/
def lastOpResult (init : Option Val) : List SSOp → Option Val
  | [] => init
  | .emplace v :: rest => lastOpResult (some v) rest
  | .remove :: rest => lastOpResult none rest

theorem wf_applyOp {ss : SparseSet Val} (hwf : ss.WF) (entity : Goent) (op : SSOp) :
    (applyOp ss entity op).WF := by
  cases op with
  | emplace v => exact wf_emplace hwf entity v
  | remove => exact wf_remove hwf entity

theorem wf_applyOps {ss : SparseSet Val} (hwf : ss.WF) (entity : Goent)
    (ops : List SSOp) : (applyOps ss entity ops).WF := by
  induction ops generalizing ss with
  | nil => exact hwf
  | cons op rest ih => exact ih (wf_applyOp hwf entity op)

theorem get_applyOps {ss : SparseSet Val} (hwf : ss.WF) (entity : Goent)
    (ops : List SSOp) :
    (applyOps ss entity ops).Get entity = lastOpResult (ss.Get entity) ops := by
  induction ops generalizing ss with
  | nil => rfl
  | cons op rest ih =>
    cases op with
    | emplace v =>
      show (applyOps (ss.Emplace entity v) entity rest).Get entity
        = lastOpResult (some v) rest
      rw [ih (wf_emplace hwf entity v), get_emplace_self hwf]
    | remove =>
      show (applyOps (ss.Remove entity) entity rest).Get entity
        = lastOpResult none rest
      rw [ih (wf_remove hwf entity), get_remove_self]

/-- The most recent operation of a sequence, if any. -/
def lastOp : List SSOp → Option SSOp
  | [] => none
  | op :: rest =>
    match lastOp rest with
    | none => some op
    | some l => some l

theorem lastOp_cons (op : SSOp) (rest : List SSOp) :
    lastOp (op :: rest) =
      match lastOp rest with
      | none => some op
      | some l => some l := rfl

theorem lastOpResult_lastOp (init : Option Val) (ops : List SSOp) :
    lastOpResult init ops =
      match lastOp ops with
      | some (.emplace v) => some v
      | some .remove => none
      | none => init := by
  induction ops generalizing init with
  | nil => rfl
  | cons op rest ih =>
    have hstep : lastOpResult init (op :: rest) =
        lastOpResult
          (match op with
           | .emplace v => some v
           | .remove => none) rest := by
      cases op <;> rfl
    rw [hstep, ih, lastOp_cons]
    cases hl : lastOp rest with
    | none => cases op <;> rfl
    | some l => cases l <;> rfl

/-! ### Typed iteration helpers (`Iterate2/3/4`, `iterateDense`)

The Go visitors receive the entity and pointers to its components and may
mutate through the pointers; the model passes the current component values
and writes the returned values back through `writeAt`.  Each iteration also
returns the list of visited entities (the sequence of visitor invocations),
which is the observable the specification speaks about. -/

def updateStorage (r : Registry) (t : TypeKey) (s : SparseSet Val) : Registry :=
  fun k => if k = t then some s else r k

/-- The loop of `Iterate2`: `iterateDense` over the chosen base dense list,
with the all-or-nothing component check of the source. -/
def iterate2Core (s1 s2 : SparseSet Val) (f : Goent → Val → Val → Val × Val) :
    List Goent → SparseSet Val × SparseSet Val × List Goent
  | [] => (s1, s2, [])
  | e :: rest =>
    match s1.Get e, s2.Get e with
    | some c1, some c2 =>
      let p := f e c1 c2
      let r := iterate2Core (s1.writeAt e p.1) (s2.writeAt e p.2) f rest
      (r.1, r.2.1, e :: r.2.2)
    | _, _ => iterate2Core s1 s2 f rest

/-- Go `Iterate2`: resolve both storages (silent no-op when either is
missing), drive iteration from the smaller dense list. -/
def Iterate2 (r : Registry) (t1 t2 : TypeKey) (f : Goent → Val → Val → Val × Val) :
    Registry × List Goent :=
  match getStorage r t1, getStorage r t2 with
  | some s1, some s2 =>
    let baseDense := if s2.dense.length < s1.dense.length then s2.dense else s1.dense
    let res := iterate2Core s1 s2 f baseDense
    (updateStorage (updateStorage r t1 res.1) t2 res.2.1, res.2.2)
  | _, _ => (r, [])

def iterate3Core (s1 s2 s3 : SparseSet Val)
    (f : Goent → Val → Val → Val → Val × Val × Val) :
    List Goent → SparseSet Val × SparseSet Val × SparseSet Val × List Goent
  | [] => (s1, s2, s3, [])
  | e :: rest =>
    match s1.Get e, s2.Get e, s3.Get e with
    | some c1, some c2, some c3 =>
      let p := f e c1 c2 c3
      let r := iterate3Core (s1.writeAt e p.1) (s2.writeAt e p.2.1)
        (s3.writeAt e p.2.2) f rest
      (r.1, r.2.1, r.2.2.1, e :: r.2.2.2)
    | _, _, _ => iterate3Core s1 s2 s3 f rest

/-- Go `Iterate3`. -/
def Iterate3 (r : Registry) (t1 t2 t3 : TypeKey)
    (f : Goent → Val → Val → Val → Val × Val × Val) : Registry × List Goent :=
  match getStorage r t1, getStorage r t2, getStorage r t3 with
  | some s1, some s2, some s3 =>
    let base1 := s1.dense
    let base2 := if s2.dense.length < base1.length then s2.dense else base1
    let base3 := if s3.dense.length < base2.length then s3.dense else base2
    let res := iterate3Core s1 s2 s3 f base3
    (updateStorage (updateStorage (updateStorage r t1 res.1) t2 res.2.1) t3 res.2.2.1,
      res.2.2.2)
  | _, _, _ => (r, [])

def iterate4Core (s1 s2 s3 s4 : SparseSet Val)
    (f : Goent → Val → Val → Val → Val → Val × Val × Val × Val) :
    List Goent →
      SparseSet Val × SparseSet Val × SparseSet Val × SparseSet Val × List Goent
  | [] => (s1, s2, s3, s4, [])
  | e :: rest =>
    match s1.Get e, s2.Get e, s3.Get e, s4.Get e with
    | some c1, some c2, some c3, some c4 =>
      let p := f e c1 c2 c3 c4
      let r := iterate4Core (s1.writeAt e p.1) (s2.writeAt e p.2.1)
        (s3.writeAt e p.2.2.1) (s4.writeAt e p.2.2.2) f rest
      (r.1, r.2.1, r.2.2.1, r.2.2.2.1, e :: r.2.2.2.2)
    | _, _, _, _ => iterate4Core s1 s2 s3 s4 f rest

/-- Go `Iterate4`. -/
def Iterate4 (r : Registry) (t1 t2 t3 t4 : TypeKey)
    (f : Goent → Val → Val → Val → Val → Val × Val × Val × Val) :
    Registry × List Goent :=
  match getStorage r t1, getStorage r t2, getStorage r t3, getStorage r t4 with
  | some s1, some s2, some s3, some s4 =>
    let base1 := s1.dense
    let base2 := if s2.dense.length < base1.length then s2.dense else base1
    let base3 := if s3.dense.length < base2.length then s3.dense else base2
    let base4 := if s4.dense.length < base3.length then s4.dense else base3
    let res := iterate4Core s1 s2 s3 s4 f base4
    (updateStorage
      (updateStorage (updateStorage (updateStorage r t1 res.1) t2 res.2.1)
        t3 res.2.2.1) t4 res.2.2.2.1,
      res.2.2.2.2)
  | _, _, _, _ => (r, [])

theorem iterate2Core_ids (s1 s2 : SparseSet Val) (f : Goent → Val → Val → Val × Val)
    (base : List Goent) :
    (iterate2Core s1 s2 f base).2.2 =
      base.filter (fun e => (s1.Get e).isSome && (s2.Get e).isSome) := by
  induction base generalizing s1 s2 with
  | nil => rfl
  | cons e rest ih =>
    rcases h1 : s1.Get e with _ | c1 <;> rcases h2 : s2.Get e with _ | c2 <;>
      simp only [iterate2Core, h1, h2, List.filter_cons, Option.isSome_none,
        Option.isSome_some, Bool.false_and, Bool.true_and, Bool.and_false,
        Bool.and_self, if_false, if_true, Bool.false_eq_true, if_neg, ite_false,
        ite_true]
    · exact ih s1 s2
    · exact ih s1 s2
    · exact ih s1 s2
    · rw [ih]
      congr 1
      apply List.filter_congr
      intro x _
      rw [get_isSome_writeAt, get_isSome_writeAt]

theorem iterate3Core_ids (s1 s2 s3 : SparseSet Val)
    (f : Goent → Val → Val → Val → Val × Val × Val) (base : List Goent) :
    (iterate3Core s1 s2 s3 f base).2.2.2 =
      base.filter (fun e =>
        (s1.Get e).isSome && (s2.Get e).isSome && (s3.Get e).isSome) := by
  induction base generalizing s1 s2 s3 with
  | nil => rfl
  | cons e rest ih =>
    rcases h1 : s1.Get e with _ | c1 <;> rcases h2 : s2.Get e with _ | c2 <;>
      rcases h3 : s3.Get e with _ | c3 <;>
      simp only [iterate3Core, h1, h2, h3, List.filter_cons, Option.isSome_none,
        Option.isSome_some, Bool.false_and, Bool.true_and, Bool.and_false,
        Bool.and_true, Bool.and_self, Bool.false_eq_true, ite_false, ite_true] <;>
      first
      | exact ih s1 s2 s3
      | (rw [ih]
         congr 1
         apply List.filter_congr
         intro x _
         rw [get_isSome_writeAt, get_isSome_writeAt, get_isSome_writeAt])

theorem iterate4Core_ids (s1 s2 s3 s4 : SparseSet Val)
    (f : Goent → Val → Val → Val → Val → Val × Val × Val × Val)
    (base : List Goent) :
    (iterate4Core s1 s2 s3 s4 f base).2.2.2.2 =
      base.filter (fun e =>
        (s1.Get e).isSome && (s2.Get e).isSome && (s3.Get e).isSome &&
          (s4.Get e).isSome) := by
  induction base generalizing s1 s2 s3 s4 with
  | nil => rfl
  | cons e rest ih =>
    rcases h1 : s1.Get e with _ | c1 <;> rcases h2 : s2.Get e with _ | c2 <;>
      rcases h3 : s3.Get e with _ | c3 <;> rcases h4 : s4.Get e with _ | c4 <;>
      simp only [iterate4Core, h1, h2, h3, h4, List.filter_cons, Option.isSome_none,
        Option.isSome_some, Bool.false_and, Bool.true_and, Bool.and_false,
        Bool.and_true, Bool.and_self, Bool.false_eq_true, ite_false, ite_true] <;>
      first
      | exact ih s1 s2 s3 s4
      | (rw [ih]
         congr 1
         apply List.filter_congr
         intro x _
         rw [get_isSome_writeAt, get_isSome_writeAt, get_isSome_writeAt,
           get_isSome_writeAt])

/-- A filter of a duplicate-free base list whose predicate forces membership
visits exactly the predicate's extension, once each. -/
theorem filter_exact (base : List Goent) (p : Goent → Bool)
    (hnd : base.Nodup) (hin : ∀ e, p e = true → e ∈ base) :
    (base.filter p).Nodup ∧ ∀ e, e ∈ base.filter p ↔ p e = true := by
  refine ⟨hnd.filter p, fun e => ?_⟩
  rw [List.mem_filter]
  constructor
  · exact And.right
  · intro h
    exact ⟨hin e h, h⟩

theorem Iterate2_snd (r : Registry) (t1 t2 : TypeKey) (s1 s2 : SparseSet Val)
    (f : Goent → Val → Val → Val × Val)
    (h1 : r t1 = some s1) (h2 : r t2 = some s2) :
    (Iterate2 r t1 t2 f).2 =
      (iterate2Core s1 s2 f
        (if s2.dense.length < s1.dense.length then s2.dense else s1.dense)).2.2 := by
  unfold Iterate2 getStorage
  rw [h1, h2]

theorem Iterate3_snd (r : Registry) (t1 t2 t3 : TypeKey) (s1 s2 s3 : SparseSet Val)
    (f : Goent → Val → Val → Val → Val × Val × Val)
    (h1 : r t1 = some s1) (h2 : r t2 = some s2) (h3 : r t3 = some s3) :
    (Iterate3 r t1 t2 t3 f).2 =
      (iterate3Core s1 s2 s3 f
        (if s3.dense.length <
            (if s2.dense.length < s1.dense.length then s2.dense else s1.dense).length
         then s3.dense
         else if s2.dense.length < s1.dense.length then s2.dense
         else s1.dense)).2.2.2 := by
  unfold Iterate3 getStorage
  rw [h1, h2, h3]

theorem Iterate4_snd (r : Registry) (t1 t2 t3 t4 : TypeKey)
    (s1 s2 s3 s4 : SparseSet Val)
    (f : Goent → Val → Val → Val → Val → Val × Val × Val × Val)
    (h1 : r t1 = some s1) (h2 : r t2 = some s2) (h3 : r t3 = some s3)
    (h4 : r t4 = some s4) :
    (Iterate4 r t1 t2 t3 t4 f).2 =
      (iterate4Core s1 s2 s3 s4 f
        (if s4.dense.length <
            (if s3.dense.length <
                (if s2.dense.length < s1.dense.length then s2.dense
                 else s1.dense).length
              then s3.dense
              else if s2.dense.length < s1.dense.length then s2.dense
              else s1.dense).length
         then s4.dense
         else
           if s3.dense.length <
              (if s2.dense.length < s1.dense.length then s2.dense
               else s1.dense).length
            then s3.dense
            else if s2.dense.length < s1.dense.length then s2.dense
            else s1.dense)).2.2.2.2 := by
  unfold Iterate4 getStorage
  rw [h1, h2, h3, h4]

theorem iterate2_visits (r : Registry) (t1 t2 : TypeKey) (s1 s2 : SparseSet Val)
    (f : Goent → Val → Val → Val × Val)
    (h1 : r t1 = some s1) (h2 : r t2 = some s2) (hw1 : s1.WF) (hw2 : s2.WF) :
    (Iterate2 r t1 t2 f).2.Nodup ∧
      ∀ e, e ∈ (Iterate2 r t1 t2 f).2 ↔
        (s1.Get e).isSome = true ∧ (s2.Get e).isSome = true := by
  rw [Iterate2_snd r t1 t2 s1 s2 f h1 h2, iterate2Core_ids]
  have hp : ∀ e, ((s1.Get e).isSome && (s2.Get e).isSome) = true ↔
      (s1.Get e).isSome = true ∧ (s2.Get e).isSome = true := by
    intro e
    rw [Bool.and_eq_true]
  by_cases hb : s2.dense.length < s1.dense.length
  · rw [if_pos hb]
    obtain ⟨hnd, hmem⟩ := filter_exact s2.dense _ (nodup_dense hw2)
      (fun e hpe => (get_isSome_iff_mem hw2 e).mp ((hp e).mp hpe).2)
    exact ⟨hnd, fun e => by rw [hmem e, hp e]⟩
  · rw [if_neg hb]
    obtain ⟨hnd, hmem⟩ := filter_exact s1.dense _ (nodup_dense hw1)
      (fun e hpe => (get_isSome_iff_mem hw1 e).mp ((hp e).mp hpe).1)
    exact ⟨hnd, fun e => by rw [hmem e, hp e]⟩

theorem iterate3_visits (r : Registry) (t1 t2 t3 : TypeKey)
    (s1 s2 s3 : SparseSet Val) (f : Goent → Val → Val → Val → Val × Val × Val)
    (h1 : r t1 = some s1) (h2 : r t2 = some s2) (h3 : r t3 = some s3)
    (hw1 : s1.WF) (hw2 : s2.WF) (hw3 : s3.WF) :
    (Iterate3 r t1 t2 t3 f).2.Nodup ∧
      ∀ e, e ∈ (Iterate3 r t1 t2 t3 f).2 ↔
        (s1.Get e).isSome = true ∧ (s2.Get e).isSome = true ∧
          (s3.Get e).isSome = true := by
  rw [Iterate3_snd r t1 t2 t3 s1 s2 s3 f h1 h2 h3, iterate3Core_ids]
  have hp : ∀ e, ((s1.Get e).isSome && (s2.Get e).isSome && (s3.Get e).isSome)
      = true ↔
      (s1.Get e).isSome = true ∧ (s2.Get e).isSome = true ∧
        (s3.Get e).isSome = true := by
    intro e
    rw [Bool.and_eq_true, Bool.and_eq_true, and_assoc]
  by_cases hb2 : s2.dense.length < s1.dense.length <;>
    [rw [if_pos hb2]; rw [if_neg hb2]] <;>
    [by_cases hb3 : s3.dense.length < s2.dense.length;
     by_cases hb3 : s3.dense.length < s1.dense.length] <;>
    [rw [if_pos hb3]; rw [if_neg hb3]; rw [if_pos hb3]; rw [if_neg hb3]]
  · obtain ⟨hnd, hmem⟩ := filter_exact s3.dense _ (nodup_dense hw3)
      (fun e hpe => (get_isSome_iff_mem hw3 e).mp ((hp e).mp hpe).2.2)
    exact ⟨hnd, fun e => by rw [hmem e, hp e]⟩
  · obtain ⟨hnd, hmem⟩ := filter_exact s2.dense _ (nodup_dense hw2)
      (fun e hpe => (get_isSome_iff_mem hw2 e).mp ((hp e).mp hpe).2.1)
    exact ⟨hnd, fun e => by rw [hmem e, hp e]⟩
  · obtain ⟨hnd, hmem⟩ := filter_exact s3.dense _ (nodup_dense hw3)
      (fun e hpe => (get_isSome_iff_mem hw3 e).mp ((hp e).mp hpe).2.2)
    exact ⟨hnd, fun e => by rw [hmem e, hp e]⟩
  · obtain ⟨hnd, hmem⟩ := filter_exact s1.dense _ (nodup_dense hw1)
      (fun e hpe => (get_isSome_iff_mem hw1 e).mp ((hp e).mp hpe).1)
    exact ⟨hnd, fun e => by rw [hmem e, hp e]⟩

theorem iterate4_visits (r : Registry) (t1 t2 t3 t4 : TypeKey)
    (s1 s2 s3 s4 : SparseSet Val)
    (f : Goent → Val → Val → Val → Val → Val × Val × Val × Val)
    (h1 : r t1 = some s1) (h2 : r t2 = some s2) (h3 : r t3 = some s3)
    (h4 : r t4 = some s4)
    (hw1 : s1.WF) (hw2 : s2.WF) (hw3 : s3.WF) (hw4 : s4.WF) :
    (Iterate4 r t1 t2 t3 t4 f).2.Nodup ∧
      ∀ e, e ∈ (Iterate4 r t1 t2 t3 t4 f).2 ↔
        (s1.Get e).isSome = true ∧ (s2.Get e).isSome = true ∧
          (s3.Get e).isSome = true ∧ (s4.Get e).isSome = true := by
  rw [Iterate4_snd r t1 t2 t3 t4 s1 s2 s3 s4 f h1 h2 h3 h4, iterate4Core_ids]
  have hp : ∀ e,
      ((s1.Get e).isSome && (s2.Get e).isSome && (s3.Get e).isSome &&
        (s4.Get e).isSome) = true ↔
      (s1.Get e).isSome = true ∧ (s2.Get e).isSome = true ∧
        (s3.Get e).isSome = true ∧ (s4.Get e).isSome = true := by
    intro e
    rw [Bool.and_eq_true, Bool.and_eq_true, Bool.and_eq_true, and_assoc, and_assoc]
  by_cases hb2 : s2.dense.length < s1.dense.length
  · rw [if_pos hb2]
    by_cases hb3 : s3.dense.length < s2.dense.length
    · rw [if_pos hb3]
      by_cases hb4 : s4.dense.length < s3.dense.length
      · rw [if_pos hb4]
        obtain ⟨hnd, hmem⟩ := filter_exact s4.dense _ (nodup_dense hw4)
          (fun e hpe => (get_isSome_iff_mem hw4 e).mp ((hp e).mp hpe).2.2.2)
        exact ⟨hnd, fun e => by rw [hmem e, hp e]⟩
      · rw [if_neg hb4]
        obtain ⟨hnd, hmem⟩ := filter_exact s3.dense _ (nodup_dense hw3)
          (fun e hpe => (get_isSome_iff_mem hw3 e).mp ((hp e).mp hpe).2.2.1)
        exact ⟨hnd, fun e => by rw [hmem e, hp e]⟩
    · rw [if_neg hb3]
      by_cases hb4 : s4.dense.length < s2.dense.length
      · rw [if_pos hb4]
        obtain ⟨hnd, hmem⟩ := filter_exact s4.dense _ (nodup_dense hw4)
          (fun e hpe => (get_isSome_iff_mem hw4 e).mp ((hp e).mp hpe).2.2.2)
        exact ⟨hnd, fun e => by rw [hmem e, hp e]⟩
      · rw [if_neg hb4]
        obtain ⟨hnd, hmem⟩ := filter_exact s2.dense _ (nodup_dense hw2)
          (fun e hpe => (get_isSome_iff_mem hw2 e).mp ((hp e).mp hpe).2.1)
        exact ⟨hnd, fun e => by rw [hmem e, hp e]⟩
  · rw [if_neg hb2]
    by_cases hb3 : s3.dense.length < s1.dense.length
    · rw [if_pos hb3]
      by_cases hb4 : s4.dense.length < s3.dense.length
      · rw [if_pos hb4]
        obtain ⟨hnd, hmem⟩ := filter_exact s4.dense _ (nodup_dense hw4)
          (fun e hpe => (get_isSome_iff_mem hw4 e).mp ((hp e).mp hpe).2.2.2)
        exact ⟨hnd, fun e => by rw [hmem e, hp e]⟩
      · rw [if_neg hb4]
        obtain ⟨hnd, hmem⟩ := filter_exact s3.dense _ (nodup_dense hw3)
          (fun e hpe => (get_isSome_iff_mem hw3 e).mp ((hp e).mp hpe).2.2.1)
        exact ⟨hnd, fun e => by rw [hmem e, hp e]⟩
    · rw [if_neg hb3]
      by_cases hb4 : s4.dense.length < s1.dense.length
      · rw [if_pos hb4]
        obtain ⟨hnd, hmem⟩ := filter_exact s4.dense _ (nodup_dense hw4)
          (fun e hpe => (get_isSome_iff_mem hw4 e).mp ((hp e).mp hpe).2.2.2)
        exact ⟨hnd, fun e => by rw [hmem e, hp e]⟩
      · rw [if_neg hb4]
        obtain ⟨hnd, hmem⟩ := filter_exact s1.dense _ (nodup_dense hw1)
          (fun e hpe => (get_isSome_iff_mem hw1 e).mp ((hp e).mp hpe).1)
        exact ⟨hnd, fun e => by rw [hmem e, hp e]⟩

/-! ### Claim C1 -/

/-- Fold of `EmplaceComponent` over a list of entities, each receiving its
own id as component value. -/
def emplaceAll (r : Registry) (t : TypeKey) (es : List Goent) : Registry :=
  es.foldl (fun acc e => EmplaceComponent acc t e (e : Int)) r

/-- The concrete scenario of C1: component A (key 0) on entities 0,2,4,6,8
and component B (key 1) on entities 0,1,2,3. -/
def c1Scenario : Registry :=
  emplaceAll (emplaceAll NewRegistry 0 [0, 2, 4, 6, 8]) 1 [0, 1, 2, 3]

/-- Witness storage: a sparse set holding entity 0 with value `n`. -/
def sWit (n : Val) : SparseSet Val := (NewSparseSet Val).Emplace 0 n

/-- Witness registry with storages under keys 0..3. -/
def rWit : Registry := fun k => if k < 4 then some (sWit ((k : Int) + 1)) else none

/-- C1: for every registry state whose storages satisfy the structural
invariant, `Iterate2`/`Iterate3`/`Iterate4` invoke the visitor exactly on
the set of entities holding all requested component types, each exactly
once per call (whichever sparse set is smallest); and in the concrete
scenario with A on 0,2,4,6,8 and B on 0,1,2,3, `Iterate2` visits exactly
the entities 0 and 2, in this order, each once. -/
theorem c1_iterate_visits_exact :
    (∀ (r : Registry) (t1 t2 : TypeKey) (s1 s2 : SparseSet Val)
        (f : Goent → Val → Val → Val × Val),
      r t1 = some s1 → r t2 = some s2 → s1.WF → s2.WF →
        (Iterate2 r t1 t2 f).2.Nodup ∧
        ∀ e, e ∈ (Iterate2 r t1 t2 f).2 ↔
          (s1.Get e).isSome = true ∧ (s2.Get e).isSome = true) ∧
    (∀ (r : Registry) (t1 t2 t3 : TypeKey) (s1 s2 s3 : SparseSet Val)
        (f : Goent → Val → Val → Val → Val × Val × Val),
      r t1 = some s1 → r t2 = some s2 → r t3 = some s3 →
        s1.WF → s2.WF → s3.WF →
        (Iterate3 r t1 t2 t3 f).2.Nodup ∧
        ∀ e, e ∈ (Iterate3 r t1 t2 t3 f).2 ↔
          (s1.Get e).isSome = true ∧ (s2.Get e).isSome = true ∧
            (s3.Get e).isSome = true) ∧
    (∀ (r : Registry) (t1 t2 t3 t4 : TypeKey) (s1 s2 s3 s4 : SparseSet Val)
        (f : Goent → Val → Val → Val → Val → Val × Val × Val × Val),
      r t1 = some s1 → r t2 = some s2 → r t3 = some s3 → r t4 = some s4 →
        s1.WF → s2.WF → s3.WF → s4.WF →
        (Iterate4 r t1 t2 t3 t4 f).2.Nodup ∧
        ∀ e, e ∈ (Iterate4 r t1 t2 t3 t4 f).2 ↔
          (s1.Get e).isSome = true ∧ (s2.Get e).isSome = true ∧
            (s3.Get e).isSome = true ∧ (s4.Get e).isSome = true) ∧
    (Iterate2 c1Scenario 0 1 (fun _ a b => (a, b))).2 = [0, 2] := by
  refine ⟨?_, ?_, ?_, ?_⟩
  · exact fun r t1 t2 s1 s2 f h1 h2 hw1 hw2 =>
      iterate2_visits r t1 t2 s1 s2 f h1 h2 hw1 hw2
  · exact fun r t1 t2 t3 s1 s2 s3 f h1 h2 h3 hw1 hw2 hw3 =>
      iterate3_visits r t1 t2 t3 s1 s2 s3 f h1 h2 h3 hw1 hw2 hw3
  · exact fun r t1 t2 t3 t4 s1 s2 s3 s4 f h1 h2 h3 h4 hw1 hw2 hw3 hw4 =>
      iterate4_visits r t1 t2 t3 t4 s1 s2 s3 s4 f h1 h2 h3 h4 hw1 hw2 hw3 hw4
  · decide

/-- Witness for C1: all hypotheses hold at a concrete registry, and the
instantiated conclusions follow by the theorem. -/
theorem c1_iterate_visits_exact_witness :
    (rWit 0 = some (sWit 1) ∧ rWit 1 = some (sWit 2) ∧ rWit 2 = some (sWit 3) ∧
      rWit 3 = some (sWit 4) ∧
      (sWit 1).WF ∧ (sWit 2).WF ∧ (sWit 3).WF ∧ (sWit 4).WF) ∧
    ((0 : Goent) ∈ (Iterate2 rWit 0 1 (fun _ a b => (a, b))).2 ↔
      ((sWit 1).Get 0).isSome = true ∧ ((sWit 2).Get 0).isSome = true) ∧
    ((0 : Goent) ∈ (Iterate3 rWit 0 1 2 (fun _ a b c => (a, b, c))).2 ↔
      ((sWit 1).Get 0).isSome = true ∧ ((sWit 2).Get 0).isSome = true ∧
        ((sWit 3).Get 0).isSome = true) ∧
    ((0 : Goent) ∈ (Iterate4 rWit 0 1 2 3 (fun _ a b c d => (a, b, c, d))).2 ↔
      ((sWit 1).Get 0).isSome = true ∧ ((sWit 2).Get 0).isSome = true ∧
        ((sWit 3).Get 0).isSome = true ∧ ((sWit 4).Get 0).isSome = true) :=
  ⟨⟨by decide, by decide, by decide, by decide,
    by decide, by decide, by decide, by decide⟩,
   (c1_iterate_visits_exact.1 rWit 0 1 (sWit 1) (sWit 2) (fun _ a b => (a, b))
      (by decide) (by decide) (by decide) (by decide)).2 0,
   (c1_iterate_visits_exact.2.1 rWit 0 1 2 (sWit 1) (sWit 2) (sWit 3)
      (fun _ a b c => (a, b, c))
      (by decide) (by decide) (by decide) (by decide) (by decide) (by decide)).2 0,
   (c1_iterate_visits_exact.2.2.1 rWit 0 1 2 3 (sWit 1) (sWit 2) (sWit 3) (sWit 4)
      (fun _ a b c d => (a, b, c, d))
      (by decide) (by decide) (by decide) (by decide)
      (by decide) (by decide) (by decide) (by decide)).2 0⟩

/-! ### Claim C4 -/

/-- C4: `Emplace` and `Remove` preserve the structural invariant
`SparseSet.WF` (equal dense/component lengths with no gaps, and the
`sparse`/`dense` index bijection with `invalidIndex` marking absence); this
includes removing the entity currently last in `dense`.  `Get` does not
modify the sparse set in the source, so it preserves the invariant
trivially and returns no state in this model. -/
theorem c4_operations_preserve_invariant {T : Type} [Inhabited T]
    (ss : SparseSet T) (entity : Goent) (v : T) (hwf : ss.WF) :
    (ss.Emplace entity v).WF ∧ (ss.Remove entity).WF :=
  ⟨wf_emplace hwf entity v, wf_remove hwf entity⟩

/-- Witness for C4 at a concrete two-entity set, removing the entity
currently last in `dense`. -/
theorem c4_operations_preserve_invariant_witness :
    ((((NewSparseSet Val).Emplace 0 5).Emplace 1 6)).WF ∧
      ((((NewSparseSet Val).Emplace 0 5).Emplace 1 6).Emplace 1 9).WF ∧
      ((((NewSparseSet Val).Emplace 0 5).Emplace 1 6).Remove 1).WF :=
  ⟨by decide,
   (c4_operations_preserve_invariant (((NewSparseSet Val).Emplace 0 5).Emplace 1 6)
     1 9 (by decide)).1,
   (c4_operations_preserve_invariant (((NewSparseSet Val).Emplace 0 5).Emplace 1 6)
     1 9 (by decide)).2⟩

/-! ### Claim C10 -/

/-- C10: a repeated `Emplace` on an entity that already holds a component
overwrites the stored value through the same backing slot — `dense` and
`sparse` are untouched (so the recorded index, i.e. the slot identity, is
unchanged and no duplicate dense entry appears) and `components` changes
only at that recorded index, its length unchanged. -/
theorem c10_repeat_emplace_overwrites_in_place {T : Type} [Inhabited T]
    (ss : SparseSet T) (entity : Goent) (v : T) (hwf : ss.WF)
    (hheld : (ss.Get entity).isSome = true) :
    (ss.Emplace entity v).dense = ss.dense ∧
    (ss.Emplace entity v).sparse = ss.sparse ∧
    (ss.Emplace entity v).components =
      ss.components.set (nth ss.sparse entity invalidIndex).toNat v ∧
    (ss.Emplace entity v).components.length = ss.components.length := by
  obtain ⟨hlt, hne⟩ := (get_isSome_iff hwf entity).mp hheld
  rw [emplace_eq_overwrite ss entity v hlt hne]
  exact ⟨rfl, rfl, rfl, by simp⟩

/-- Witness for C10. -/
theorem c10_repeat_emplace_overwrites_in_place_witness :
    ((NewSparseSet Val).Emplace 3 7).WF ∧
      ((((NewSparseSet Val).Emplace 3 7).Get 3).isSome = true) ∧
      (((NewSparseSet Val).Emplace 3 7).Emplace 3 9).dense =
        ((NewSparseSet Val).Emplace 3 7).dense :=
  ⟨by decide, by decide,
   (c10_repeat_emplace_overwrites_in_place ((NewSparseSet Val).Emplace 3 7) 3 9
     (by decide) (by decide)).1⟩

/-! ### Claim C9 -/

/-- The registry of C9's concrete scenario: component A (key 0) emplaced on
entity 5 with value 42. -/
def c9Reg : Registry := EmplaceComponent NewRegistry 0 5 42

theorem RemoveComponent_none (r : Registry) (t : TypeKey) (e : Goent)
    (h : r t = none) : RemoveComponent r t e = r := by
  unfold RemoveComponent
  rw [h]

theorem RemoveComponent_some (r : Registry) (t : TypeKey) (e : Goent)
    (s : SparseSet Val) (h : r t = some s) :
    RemoveComponent r t e = fun k => if k = t then some (s.Remove e) else r k := by
  unfold RemoveComponent
  rw [h]

theorem GetComponent_some (r : Registry) (t : TypeKey) (e : Goent)
    (s : SparseSet Val) (h : r t = some s) :
    GetComponent r t e = s.Get e := by
  unfold GetComponent
  rw [h]

theorem c9Reg_wf : Registry.WF c9Reg := by
  intro t s h
  simp only [c9Reg, EmplaceComponent, NewRegistry] at h
  by_cases ht : t = 0
  · subst ht
    rw [if_pos rfl] at h
    injection h with h
    exact h ▸ (by decide)
  · rw [if_neg ht] at h
    simp at h

/-! ### Claim C5 (code bug)

The spec states a sparse set, once created, is never destroyed or replaced
before the registry is, and `Register<T>` is an explicit pre-creation whose
use on an already-populated registry must keep old components retrievable.
The source's `RegisterComponent` however stores a fresh empty set
unconditionally (`r.storages[key] = set`), dropping any existing storage —
contradicting the documented lifecycle (its own comment likens it to the
create-only-if-missing logic inside `EmplaceComponent`). -/

/-- C5: evaluation at the failing input.  After emplacing A (key 0) on
entity 7 with value 42, the component is retrievable; calling
`RegisterComponent` for the same type replaces the storage and the
component is lost. -/
theorem c5_register_discards_existing_storage :
    GetComponent (EmplaceComponent NewRegistry 0 7 42) 0 7 = some 42 ∧
    GetComponent (RegisterComponent (EmplaceComponent NewRegistry 0 7 42) 0) 0 7 =
      none := by
  constructor <;> decide

/-! ### Claim C7 -/

/-- Emplace components on entities `0 .. n-1` with values `f`, starting from
a fresh sparse set (the concrete growth scenario of the spec uses
`n = 300`, crossing the 256-capacity boundary). -/
def emplaceSeq (f : Goent → Val) (n : Nat) : SparseSet Val :=
  (List.range n).foldl (fun ss e => ss.Emplace e (f e)) (NewSparseSet Val)

theorem emplaceSeq_succ (f : Goent → Val) (n : Nat) :
    emplaceSeq f (n + 1) = (emplaceSeq f n).Emplace n (f n) := by
  unfold emplaceSeq
  rw [List.range_succ, List.foldl_append]
  rfl

theorem emplaceSeq_wf (f : Goent → Val) (n : Nat) : (emplaceSeq f n).WF := by
  induction n with
  | zero => exact wf_new Val
  | succ n ih =>
    rw [emplaceSeq_succ]
    exact wf_emplace ih n (f n)

theorem emplaceSeq_get (f : Goent → Val) (n : Nat) {e : Goent} (h : e < n) :
    (emplaceSeq f n).Get e = some (f e) := by
  induction n with
  | zero => exact (Nat.not_lt_zero e h).elim
  | succ n ih =>
    rw [emplaceSeq_succ]
    by_cases he : e = n
    · subst he
      exact get_emplace_self (emplaceSeq_wf f e) e (f e)
    · rw [get_emplace_ne (emplaceSeq_wf f n) he (f n)]
      exact ih (Nat.lt_of_le_of_ne (Nat.lt_succ_iff.mp h) he)

/-- C7: an `Emplace` on an entity beyond the current sparse capacity grows
the sparse index without disturbing anything: every sparse entry below the
old capacity is unchanged, `dense`/`components` merely gain the new entry
at the end; and in the concrete scenario, after emplacing a component on
entities 0..299 (crossing the 256-capacity boundary) every one of the 300
entities is found with the value emplaced for it. -/
theorem c7_growth_preserves_existing_entries :
    (∀ {T : Type} (ss : SparseSet T) (entity : Goent) (v : T),
      ss.sparse.length ≤ entity →
        (ss.Emplace entity v).dense = ss.dense ++ [entity] ∧
        (ss.Emplace entity v).components = ss.components ++ [v] ∧
        (ss.Emplace entity v).sparse.length = nextAlignedCapacity (entity + 1) ∧
        (∀ x, x < ss.sparse.length →
          nth (ss.Emplace entity v).sparse x invalidIndex =
            nth ss.sparse x invalidIndex)) ∧
    (∀ (f : Goent → Val) (e : Goent), e < 300 →
      (emplaceSeq f 300).Get e = some (f e)) := by
  constructor
  · intro T ss entity v hlen
    rw [emplace_eq_append_grow ss entity v hlen]
    refine ⟨rfl, rfl, ?_, ?_⟩
    · simp only [List.length_set]
      exact grow_length ss entity hlen
    · intro x hx
      have hxe : entity ≠ x := fun hh => by rw [hh] at hlen; omega
      simp only
      rw [nth_set_ne _ _ hxe]
      exact grow_nth_lt ss entity hx
  · intro f e he
    exact emplaceSeq_get f 300 he

/-- Witness for C7: growth triggered at entity 300 on a one-entry set, and
the boundary-crossing scenario instantiated at entity 299. -/
theorem c7_growth_preserves_existing_entries_witness :
    ((sWit 1).sparse.length ≤ 300 ∧
      ((sWit 1).Emplace 300 9).dense = (sWit 1).dense ++ [300]) ∧
    ((299 : Goent) < 300 ∧
      (emplaceSeq (fun e => (e : Int)) 300).Get 299 = some ((299 : Goent) : Int)) :=
  ⟨⟨by decide,
    (c7_growth_preserves_existing_entries.1 (sWit 1) 300 9 (by decide)).1⟩,
   ⟨by decide,
    c7_growth_preserves_existing_entries.2 (fun e => (e : Int)) 299 (by decide)⟩⟩

/-! ### Claim C6: machine-precision `Emplace`

Go converts the `uint64` entity to `int` (64-bit, two's complement) before
indexing (`int(entity)`, goecs.go:63).  For handles at or above `2^63` the
conversion is negative and `ss.sparse[int(entity)]` panics; near the top of
the positive range `int(entity) + 1` or the aligned-capacity computation
overflows and `make` is called with a negative length, which also panics.
`EmplaceChecked` models exactly this arithmetic; `none` is a panic. -/

/-- Go `int(entity)` for a `uint64` value: two's-complement reinterpretation. -/
def goInt (n : Nat) : Int := if n < 2 ^ 63 then (n : Int) else (n : Int) - 2 ^ 64

/-- Wraparound of an int64 arithmetic result. -/
def wrap64 (n : Int) : Int := (n + 2 ^ 63) % 2 ^ 64 - 2 ^ 63

/-- Go `nextAlignedCapacity` at int64 precision: `%` and `/` truncate toward
zero in Go, and the final multiplication wraps on overflow. -/
def nextAlignedCapacityI (n : Int) : Int :=
  if Int.tmod n 256 = 0 then n else wrap64 ((Int.tdiv n 256 + 1) * 256)

/-- The part of Go `Emplace` after the growth step, on sparse index `sp`:
the slot access `sp[int(entity)]` panics (`none`) when the index is
negative or out of range. -/
def emplaceCheckedCore (ss : SparseSet Val) (entity : Nat) (comp : Val)
    (sp : List Int) : Option (SparseSet Val) :=
  if goInt entity < 0 ∨ (sp.length : Int) ≤ goInt entity then none
  else if nth sp (goInt entity).toNat invalidIndex ≠ invalidIndex then
    some { ss with
      sparse := sp
      components :=
        ss.components.set (nth sp (goInt entity).toNat invalidIndex).toNat comp }
  else
    some { dense := ss.dense ++ [entity]
           components := ss.components ++ [comp]
           sparse := sp.set (goInt entity).toNat (ss.dense.length : Int) }

/-- Go `Emplace` with explicit int64 index arithmetic: `none` models a
runtime panic (negative slice length in `make`, or an invalid sparse
index). -/
def EmplaceChecked (ss : SparseSet Val) (entity : Nat) (comp : Val) :
    Option (SparseSet Val) :=
  if (ss.sparse.length : Int) ≤ goInt entity then
    if nextAlignedCapacityI (wrap64 (goInt entity + 1)) < 0 then none
    else
      emplaceCheckedCore ss entity comp
        (ss.sparse ++
          List.replicate
            ((nextAlignedCapacityI (wrap64 (goInt entity + 1))).toNat -
              ss.sparse.length) invalidIndex)
  else emplaceCheckedCore ss entity comp ss.sparse

theorem int_tmod_256 (m : Nat) :
    Int.tmod (m : Int) 256 = ((m % 256 : Nat) : Int) := rfl

theorem int_tdiv_256 (m : Nat) :
    Int.tdiv (m : Int) 256 = ((m / 256 : Nat) : Int) := rfl

theorem wrap64_id {n : Int} (h0 : 0 ≤ n) (h1 : n < 2 ^ 63) : wrap64 n = n := by
  unfold wrap64
  rw [Int.emod_eq_of_lt (by omega) (by omega)]
  omega

theorem nextAlignedCapacityI_coe (m : Nat) (hm : m ≤ 2 ^ 63 - 256) :
    nextAlignedCapacityI (m : Int) = ((nextAlignedCapacity m : Nat) : Int) := by
  unfold nextAlignedCapacityI nextAlignedCapacity alignment
  rw [int_tmod_256, int_tdiv_256]
  by_cases h : m % 256 = 0
  · rw [if_pos (by exact_mod_cast h), if_pos h]
  · rw [if_neg (by exact_mod_cast h), if_neg h]
    have hq : (m / 256 + 1) * 256 < 2 ^ 63 := by omega
    have hcast : ((m / 256 : Nat) : Int) + 1 = (((m / 256 + 1) : Nat) : Int) := by
      push_cast
      ring
    rw [hcast,
      show ((((m / 256 + 1) : Nat) : Int)) * 256 =
        ((((m / 256 + 1) * 256 : Nat)) : Int) by push_cast; ring]
    exact wrap64_id (by positivity) (by exact_mod_cast hq)

/-- Below the overflow region the machine-precision `Emplace` agrees with
the idealized model and succeeds. -/
theorem emplaceChecked_eq_emplace (ss : SparseSet Val) (entity : Nat) (v : Val)
    (he : entity + 257 ≤ 2 ^ 63) :
    EmplaceChecked ss entity v = some (ss.Emplace entity v) := by
  have hlt63 : entity < 2 ^ 63 := by omega
  have hgoInt : goInt entity = (entity : Int) := by
    unfold goInt
    rw [if_pos hlt63]
  unfold EmplaceChecked emplaceCheckedCore
  rw [hgoInt]
  have hnat : ((entity : Int)).toNat = entity := Int.toNat_natCast entity
  by_cases hg : ss.sparse.length ≤ entity
  · rw [if_pos (by exact_mod_cast hg)]
    have hw : wrap64 ((entity : Int) + 1) = ((entity + 1 : Nat) : Int) := by
      rw [show ((entity : Int) + 1) = ((entity + 1 : Nat) : Int) by push_cast; ring]
      exact wrap64_id (Int.natCast_nonneg _)
        (by exact_mod_cast (show entity + 1 < 2 ^ 63 by omega))
    rw [hw, nextAlignedCapacityI_coe (entity + 1) (by omega)]
    rw [if_neg (not_lt.mpr (Int.natCast_nonneg _))]
    rw [Int.toNat_natCast, hnat]
    have hlt : entity < nextAlignedCapacity (entity + 1) :=
      Nat.lt_of_lt_of_le (Nat.lt_succ_self entity) (le_nextAlignedCapacity (entity + 1))
    have hsplen := grow_length ss entity hg
    rw [if_neg (by
      push_neg
      refine ⟨Int.natCast_nonneg _, ?_⟩
      rw [hsplen]
      exact_mod_cast hlt)]
    rw [if_neg (by
      push_neg
      exact grow_nth_ge ss entity hg hlt)]
    rw [emplace_eq_append_grow ss entity v hg]
  · rw [if_neg (by exact_mod_cast hg)]
    have hglt : entity < ss.sparse.length := Nat.lt_of_not_le hg
    rw [if_neg (by
      push_neg
      exact ⟨Int.natCast_nonneg _, by exact_mod_cast hglt⟩)]
    rw [hnat]
    by_cases hov : nth ss.sparse entity invalidIndex ≠ invalidIndex
    · rw [if_pos hov, emplace_eq_overwrite ss entity v hglt hov]
    · rw [if_neg hov, emplace_eq_append_nogrow ss entity v hglt (not_not.mp hov)]

/-- C6 counterexample: the entity handle `2^63` is a legal 64-bit handle,
yet `Emplace` on a fresh sparse set panics — `int(entity)` is negative, the
growth test fails, and the sparse access faults.  This refutes
"always succeeds for every 64-bit handle". -/
theorem c6_counterexample_emplace_panics_at_2pow63 :
    EmplaceChecked (NewSparseSet Val) (2 ^ 63) 0 = none ∧ 2 ^ 63 < 2 ^ 64 := by
  constructor
  · decide
  · norm_num

/-- C6 amended: `Emplace` succeeds without panicking for every entity
handle with `entity + 257 ≤ 2^63` (so that neither the int64 conversion nor
the aligned-capacity arithmetic overflows): it grows the sparse index to
the next aligned capacity when needed, records the component, and a
subsequent `Get` finds it.  For larger handles it panics, as the
counterexample at `2^63` shows. -/
theorem c6_emplace_succeeds_below_overflow_bound (ss : SparseSet Val)
    (entity : Nat) (v : Val) (he : entity + 257 ≤ 2 ^ 63) :
    EmplaceChecked ss entity v = some (ss.Emplace entity v) ∧
    (ss.WF → (ss.Emplace entity v).Get entity = some v) :=
  ⟨emplaceChecked_eq_emplace ss entity v he,
   fun hwf => get_emplace_self hwf entity v⟩

/-- Witness for C6's amended claim at entity 300 on a fresh set. -/
theorem c6_emplace_succeeds_below_overflow_bound_witness :
    (300 + 257 ≤ 2 ^ 63 ∧ (NewSparseSet Val).WF) ∧
    EmplaceChecked (NewSparseSet Val) 300 5 =
      some ((NewSparseSet Val).Emplace 300 5) ∧
    ((NewSparseSet Val).Emplace 300 5).Get 300 = some 5 :=
  ⟨⟨by norm_num, by decide⟩,
   (c6_emplace_succeeds_below_overflow_bound (NewSparseSet Val) 300 5
     (by norm_num)).1,
   (c6_emplace_succeeds_below_overflow_bound (NewSparseSet Val) 300 5
     (by norm_num)).2 (by decide)⟩

/-! ### Dynamic (reflection-based) iteration, from `Registry.IterateReflective`

The visitor is modelled as a descriptor: its declared parameter types (as
Go reflection sees them) plus a body mapping the entity and the fetched
component values to the values written back through the passed pointers.
The descriptor is inherently a function, so the `Kind() != Func` check of
the source has no counterpart; the remaining checks are translated check
for check.  Pointer parameters are dereferenced to their element type
before the storage lookup (goecs.go:196-198), while non-pointer parameters
are looked up as-is; since the arguments constructed for the call are
always component pointers (goecs.go:228-234), `reflect.Value.Call` panics
at the first visited entity when some component parameter was declared
by value.  A later parameter of type `Goent` itself looks up a storage
keyed by the entity type, which no component registration creates, so the
lookup fails and the call is a silent no-op. -/

/-- A visitor parameter type as seen by reflection: the entity-handle type,
a pointer to a component type, or a component type by value. -/
inductive GoParamType where
  | goentT : GoParamType
  | ptrTo (t : TypeKey) : GoParamType
  | plainT (t : TypeKey) : GoParamType
  deriving Repr, DecidableEq

/-- The visitor descriptor: declared parameter list and the body. -/
structure RVisitor where
  params : List GoParamType
  body : Goent → List Val → List Val

/-- Storage lookup for one component parameter (goecs.go:194-204). -/
def resolveParam (r : Registry) : GoParamType → Option (SparseSet Val)
  | .goentT => none
  | .ptrTo t => r t
  | .plainT t => r t

/-- Resolve all component parameters; `none` as soon as one is missing. -/
def resolveStorages (r : Registry) : List GoParamType → Option (List (SparseSet Val))
  | [] => some []
  | p :: ps =>
    match resolveParam r p with
    | none => none
    | some s =>
      match resolveStorages r ps with
      | none => none
      | some rest => some (s :: rest)

/-- The smallest-dense-array selection loop (goecs.go:207-216): start at
index 0, scan indices 1.., keep the first strictly smaller length. -/
def pickBaseIdx (storages : List (SparseSet Val)) : Nat :=
  (((List.range storages.length).drop 1).foldl
    (fun bm i =>
      if (nth storages i (NewSparseSet Val)).dense.length < bm.2 then
        (i, (nth storages i (NewSparseSet Val)).dense.length)
      else bm)
    (0, (nth storages 0 (NewSparseSet Val)).dense.length)).1

/-- Fetch the entity's component from every storage (goecs.go:227-235);
`none` if any lookup fails. -/
def allGets (storages : List (SparseSet Val)) (e : Goent) : Option (List Val) :=
  match storages with
  | [] => some []
  | s :: rest =>
    match s.Get e with
    | none => none
    | some v =>
      match allGets rest e with
      | none => none
      | some vs => some (v :: vs)

/-- Write the visitor's pointer mutations back, slot by slot. -/
def writeAll : List (SparseSet Val) → Goent → List Val → List (SparseSet Val)
  | s :: rest, e, v :: vrest => s.writeAt e v :: writeAll rest e vrest
  | ss, _, _ => ss

def isPlain : GoParamType → Bool
  | .plainT _ => true
  | _ => false

/-- The iteration loop over the base dense list (goecs.go:223-240).  When a
component parameter was declared by value (`anyPlain`), `fVal.Call` panics
on the first entity holding all components, modelled as `.error`. -/
def reflLoop (anyPlain : Bool) (body : Goent → List Val → List Val) :
    List (SparseSet Val) → List Goent →
      Except String (List (SparseSet Val) × List Goent)
  | storages, [] => .ok (storages, [])
  | storages, e :: rest =>
    match allGets storages e with
    | none => reflLoop anyPlain body storages rest
    | some vals =>
      if anyPlain then
        .error "reflect: Call using incompatible argument type"
      else
        match reflLoop anyPlain body (writeAll storages e (body e vals)) rest with
        | .error msg => .error msg
        | .ok (finalStorages, ids) => .ok (finalStorages, e :: ids)

/-- The registry key a parameter resolves through (`goentT` never reaches
write-back: its resolution always fails). -/
def paramKey : GoParamType → TypeKey
  | .goentT => 0
  | .ptrTo t => t
  | .plainT t => t

/-- In-place mutation of the resolved storages, reflected back into the
registry map in parameter order. -/
def writeBack : Registry → List TypeKey → List (SparseSet Val) → Registry
  | r, t :: ts, s :: rest => writeBack (updateStorage r t s) ts rest
  | r, _, _ => r

/-- Go `Registry.IterateReflective`: the two signature checks panic
(`.error`); a failed storage resolution is a silent no-op. -/
def IterateReflective (r : Registry) (v : RVisitor) :
    Except String (Registry × List Goent) :=
  if v.params.length < 1 ∨ v.params.head? ≠ some .goentT then
    .error "Iterate requires a function with entity Goent first"
  else if v.params.length - 1 = 0 then
    .error "Iterate function must have at least one component parameter"
  else
    match resolveStorages r v.params.tail with
    | none => .ok (r, [])
    | some storages =>
      match reflLoop (v.params.tail.any isPlain) v.body storages
          (nth storages (pickBaseIdx storages) (NewSparseSet Val)).dense with
      | .error msg => .error msg
      | .ok (finalStorages, ids) =>
        .ok (writeBack r (v.params.tail.map paramKey) finalStorages, ids)

def exceptIsError {ε α : Type} : Except ε α → Bool
  | .error _ => true
  | .ok _ => false

/-! ### Claim C2 -/

theorem pickBaseIdx_pair (s1 s2 : SparseSet Val) :
    pickBaseIdx [s1, s2] = if s2.dense.length < s1.dense.length then 1 else 0 := by
  unfold pickBaseIdx
  have h2 : (List.range ([s1, s2] : List (SparseSet Val)).length).drop 1 = [1] := rfl
  rw [h2]
  simp only [List.foldl_cons, List.foldl_nil, nth_cons_succ, nth_cons_zero]
  by_cases hb : s2.dense.length < s1.dense.length
  · rw [if_pos hb, if_pos hb]
  · rw [if_neg hb, if_neg hb]

/-- The visitor body equivalent to a typed two-component visitor. -/
def body2 (f : Goent → Val → Val → Val × Val) : Goent → List Val → List Val :=
  fun e vs =>
    match vs with
    | [a, b] => [(f e a b).1, (f e a b).2]
    | _ => vs

theorem reflLoop_pair (f : Goent → Val → Val → Val × Val) (s1 s2 : SparseSet Val)
    (base : List Goent) :
    reflLoop false (body2 f) [s1, s2] base =
      .ok ([(iterate2Core s1 s2 f base).1, (iterate2Core s1 s2 f base).2.1],
        (iterate2Core s1 s2 f base).2.2) := by
  induction base generalizing s1 s2 with
  | nil => rfl
  | cons e rest ih =>
    rcases h1 : s1.Get e with _ | c1 <;> rcases h2 : s2.Get e with _ | c2 <;>
      simp only [reflLoop, iterate2Core, allGets, h1, h2]
    · exact ih s1 s2
    · exact ih s1 s2
    · exact ih s1 s2
    · simp only [Bool.false_eq_true, if_false, ite_false, if_neg, body2, writeAll]
      rw [ih (s1.writeAt e (f e c1 c2).1) (s2.writeAt e (f e c1 c2).2)]

theorem Iterate2_eq (r : Registry) (t1 t2 : TypeKey) (s1 s2 : SparseSet Val)
    (f : Goent → Val → Val → Val × Val)
    (h1 : r t1 = some s1) (h2 : r t2 = some s2) :
    Iterate2 r t1 t2 f =
      (updateStorage
        (updateStorage r t1
          (iterate2Core s1 s2 f
            (if s2.dense.length < s1.dense.length then s2.dense else s1.dense)).1)
        t2
        (iterate2Core s1 s2 f
          (if s2.dense.length < s1.dense.length then s2.dense else s1.dense)).2.1,
       (iterate2Core s1 s2 f
         (if s2.dense.length < s1.dense.length then s2.dense else s1.dense)).2.2) := by
  unfold Iterate2 getStorage
  rw [h1, h2]

theorem IterateReflective_resolved (r : Registry) (v : RVisitor)
    (storages : List (SparseSet Val))
    (hsig1 : ¬(v.params.length < 1 ∨ v.params.head? ≠ some .goentT))
    (hsig2 : ¬(v.params.length - 1 = 0))
    (hres : resolveStorages r v.params.tail = some storages) :
    IterateReflective r v =
      match reflLoop (v.params.tail.any isPlain) v.body storages
          (nth storages (pickBaseIdx storages) (NewSparseSet Val)).dense with
      | .error msg => .error msg
      | .ok (finalStorages, ids) =>
        .ok (writeBack r (v.params.tail.map paramKey) finalStorages, ids) := by
  unfold IterateReflective
  rw [if_neg hsig1, if_neg hsig2, hres]

/-- C2: on any registry holding storages for two distinct component types,
dynamic iteration with a well-formed visitor `(Goent, *A, *B)` whose body
is equivalent to a typed visitor `f` produces exactly the same visited
entities and the same mutations (the same final registry) as
`Iterate2[A,B]` with `f`, and never panics. -/
theorem c2_reflective_matches_iterate2 (r : Registry) (t1 t2 : TypeKey)
    (s1 s2 : SparseSet Val) (f : Goent → Val → Val → Val × Val)
    (hne : t1 ≠ t2) (h1 : r t1 = some s1) (h2 : r t2 = some s2) :
    IterateReflective r ⟨[.goentT, .ptrTo t1, .ptrTo t2], body2 f⟩ =
      .ok (Iterate2 r t1 t2 f) := by
  have hres : resolveStorages r
      ([GoParamType.goentT, .ptrTo t1, .ptrTo t2] : List GoParamType).tail =
      some [s1, s2] := by
    simp only [List.tail_cons, resolveStorages, resolveParam]
    rw [h1, h2]
  rw [IterateReflective_resolved r _ [s1, s2] (by simp) (by simp) hres]
  simp only [List.tail_cons, List.any_cons, List.any_nil, isPlain, Bool.or_false,
    List.map_cons, List.map_nil, paramKey]
  rw [pickBaseIdx_pair s1 s2]
  rw [Iterate2_eq r t1 t2 s1 s2 f h1 h2]
  by_cases hb : s2.dense.length < s1.dense.length
  · rw [if_pos hb, if_pos hb]
    rw [show nth ([s1, s2] : List (SparseSet Val)) 1 (NewSparseSet Val) = s2 from rfl]
    rw [reflLoop_pair f s1 s2 s2.dense]
    rfl
  · rw [if_neg hb, if_neg hb]
    rw [show nth ([s1, s2] : List (SparseSet Val)) 0 (NewSparseSet Val) = s1 from rfl]
    rw [reflLoop_pair f s1 s2 s1.dense]
    rfl

/-- Witness for C2 at a concrete registry. -/
theorem c2_reflective_matches_iterate2_witness :
    ((0 : TypeKey) ≠ 1 ∧ rWit 0 = some (sWit 1) ∧ rWit 1 = some (sWit 2)) ∧
    IterateReflective rWit
        ⟨[.goentT, .ptrTo 0, .ptrTo 1], body2 (fun _ a b => (b, a))⟩ =
      .ok (Iterate2 rWit 0 1 (fun _ a b => (b, a))) :=
  ⟨⟨by decide, by decide, by decide⟩,
   c2_reflective_matches_iterate2 rWit 0 1 (sWit 1) (sWit 2) (fun _ a b => (b, a))
     (by decide) (by decide) (by decide)⟩

/-! ### Claim C8 -/

theorem reflLoop_false_ok (body : Goent → List Val → List Val)
    (storages : List (SparseSet Val)) (base : List Goent) :
    ∃ res, reflLoop false body storages base = .ok res := by
  induction base generalizing storages with
  | nil => exact ⟨(storages, []), rfl⟩
  | cons e rest ih =>
    cases hg : allGets storages e with
    | none =>
      obtain ⟨res, hres⟩ := ih storages
      refine ⟨res, ?_⟩
      simp only [reflLoop, hg]
      exact hres
    | some vals =>
      obtain ⟨⟨fs, ids⟩, hres⟩ := ih (writeAll storages e (body e vals))
      refine ⟨(fs, e :: ids), ?_⟩
      simp only [reflLoop, hg, Bool.false_eq_true, if_false, ite_false, if_neg]
      rw [hres]

theorem reflLoop_true_error (body : Goent → List Val → List Val)
    (storages : List (SparseSet Val)) (base : List Goent) :
    (∃ msg, reflLoop true body storages base = .error msg) ↔
      ∃ e, e ∈ base ∧ (allGets storages e).isSome = true := by
  induction base with
  | nil =>
    constructor
    · rintro ⟨msg, hmsg⟩
      exact absurd hmsg (by simp [reflLoop])
    · rintro ⟨e, he, _⟩
      simp at he
  | cons e rest ih =>
    cases hg : allGets storages e with
    | none =>
      simp only [reflLoop, hg]
      rw [ih]
      constructor
      · rintro ⟨x, hx, hs⟩
        exact ⟨x, List.mem_cons_of_mem _ hx, hs⟩
      · rintro ⟨x, hx, hs⟩
        rcases List.mem_cons.mp hx with rfl | hx
        · rw [hg] at hs
          simp at hs
        · exact ⟨x, hx, hs⟩
    | some vals =>
      simp only [reflLoop, hg]
      constructor
      · intro _
        exact ⟨e, List.mem_cons_self e rest, by rw [hg]; rfl⟩
      · intro _
        refine ⟨"reflect: Call using incompatible argument type", ?_⟩
        rw [if_pos]
        trivial

/-- C8's counterexample registry: component A (key 0) on entity 0. -/
def c8Reg : Registry := EmplaceComponent NewRegistry 0 0 1

/-- A visitor whose first parameter is `Goent` and whose single component
parameter is declared by value (`A`, not `*A`). -/
def c8Vis : RVisitor := ⟨[.goentT, .plainT 0], fun _ vs => vs⟩

/-- C8 counterexample: a visitor with first parameter `Goent` and one
component parameter — well-formed by the claim's criterion — still aborts
fatally, because the component parameter is declared by value and the
pointer argument constructed for `reflect.Value.Call` mismatches it at the
first matching entity.  So the call is not fatal *exactly* for malformed
first parameter or zero component parameters. -/
theorem c8_counterexample_value_param_panics :
    c8Vis.params.head? = some .goentT ∧ c8Vis.params.tail ≠ [] ∧
    exceptIsError (IterateReflective c8Reg c8Vis) = true := by
  refine ⟨rfl, by decide, by decide⟩

/-- C8 amended: for every visitor descriptor, `IterateReflective` aborts
fatally exactly when the first parameter type is not `Goent`, or there are
zero component parameters, or all storages resolve but some component
parameter is declared by value and some entity of the driving dense list
holds all requested components (the constructed pointer argument then
mismatches the declared parameter at `Call`); and whenever the signature is
well-formed but some declared component type has no storage, the call
returns silently with no entities visited and the registry unchanged. -/
theorem c8_panic_characterization :
    (∀ (r : Registry) (v : RVisitor),
      (∃ msg, IterateReflective r v = .error msg) ↔
        (v.params.head? ≠ some .goentT ∨ v.params.tail = [] ∨
          ∃ storages, resolveStorages r v.params.tail = some storages ∧
            v.params.tail.any isPlain = true ∧
            ∃ e, e ∈ (nth storages (pickBaseIdx storages) (NewSparseSet Val)).dense ∧
              (allGets storages e).isSome = true)) ∧
    (∀ (r : Registry) (v : RVisitor),
      v.params.head? = some .goentT → v.params.tail ≠ [] →
      resolveStorages r v.params.tail = none →
      IterateReflective r v = .ok (r, [])) := by
  have hsig : ∀ (v : RVisitor), v.params.head? = some .goentT →
      v.params.tail ≠ [] →
      ¬(v.params.length < 1 ∨ v.params.head? ≠ some GoParamType.goentT) ∧
        ¬(v.params.length - 1 = 0) := by
    intro v hh ht
    have hne : v.params ≠ [] := by
      intro h
      rw [h] at hh
      simp at hh
    have hlen : 0 < v.params.length := List.length_pos.mpr hne
    have htl : v.params.tail.length ≠ 0 := by
      intro h
      exact ht (List.eq_nil_of_length_eq_zero h)
    refine ⟨?_, ?_⟩
    · push_neg
      exact ⟨by omega, hh⟩
    · rw [← List.length_tail]
      exact htl
  constructor
  · intro r v
    by_cases hhead : v.params.head? = some .goentT
    · by_cases htail : v.params.tail = []
      · -- one parameter only: the second check fires
        have herr : IterateReflective r v =
            .error "Iterate function must have at least one component parameter" := by
          unfold IterateReflective
          have hne : v.params ≠ [] := by
            intro h
            rw [h] at hhead
            simp at hhead
          have hlen : 0 < v.params.length := List.length_pos.mpr hne
          rw [if_neg (by push_neg; exact ⟨by omega, hhead⟩),
            if_pos (by rw [← List.length_tail, htail]; rfl)]
        constructor
        · intro _
          exact Or.inr (Or.inl htail)
        · intro _
          exact ⟨_, herr⟩
      · obtain ⟨hsig1, hsig2⟩ := hsig v hhead htail
        cases hres : resolveStorages r v.params.tail with
        | none =>
          have hok : IterateReflective r v = .ok (r, []) := by
            unfold IterateReflective
            rw [if_neg hsig1, if_neg hsig2, hres]
          constructor
          · rintro ⟨msg, hmsg⟩
            rw [hok] at hmsg
            simp at hmsg
          · rintro (h | h | ⟨storages, hst, _⟩)
            · exact absurd hhead h
            · exact absurd h htail
            · simp at hst
        | some storages =>
          rw [IterateReflective_resolved r v storages hsig1 hsig2 hres]
          cases hap : v.params.tail.any isPlain with
          | false =>
            obtain ⟨⟨fs, ids⟩, hok⟩ :=
              reflLoop_false_ok v.body storages
                (nth storages (pickBaseIdx storages) (NewSparseSet Val)).dense
            rw [hok]
            constructor
            · rintro ⟨msg, hmsg⟩
              simp at hmsg
            · rintro (h | h | ⟨storages2, hst, hap2, _⟩)
              · exact absurd hhead h
              · exact absurd h htail
              · simp at hap2
          | true =>
            have hiff := reflLoop_true_error v.body storages
              (nth storages (pickBaseIdx storages) (NewSparseSet Val)).dense
            cases hloop : reflLoop true v.body storages
                (nth storages (pickBaseIdx storages) (NewSparseSet Val)).dense with
            | error msg =>
              constructor
              · intro _
                exact Or.inr (Or.inr ⟨storages, rfl, rfl, hiff.mp ⟨msg, hloop⟩⟩)
              · intro _
                exact ⟨msg, rfl⟩
            | ok res =>
              obtain ⟨fs, ids⟩ := res
              constructor
              · rintro ⟨msg, hmsg⟩
                simp at hmsg
              · rintro (h | h | ⟨storages2, hst, _, hex⟩)
                · exact absurd hhead h
                · exact absurd h htail
                · injection hst with hst
                  subst hst
                  obtain ⟨msg, hmsg⟩ := hiff.mpr hex
                  rw [hloop] at hmsg
                  simp at hmsg
    · have herr : IterateReflective r v =
          .error "Iterate requires a function with entity Goent first" := by
        unfold IterateReflective
        rw [if_pos (Or.inr hhead)]
      constructor
      · intro _
        exact Or.inl hhead
      · intro _
        exact ⟨_, herr⟩
  · intro r v hh ht hres
    obtain ⟨hsig1, hsig2⟩ := hsig v hh ht
    unfold IterateReflective
    rw [if_neg hsig1, if_neg hsig2, hres]

/-- The well-formed visitor used as C8's witness: `(Goent, *A)`. -/
def c8VisOk : RVisitor := ⟨[.goentT, .ptrTo 0], fun _ vs => vs⟩

/-- Witness for C8's silent no-op part: a well-formed visitor whose
component type has no storage in an empty registry. -/
theorem c8_panic_characterization_witness :
    (c8VisOk.params.head? = some .goentT ∧ c8VisOk.params.tail ≠ [] ∧
      resolveStorages NewRegistry c8VisOk.params.tail = none) ∧
    IterateReflective NewRegistry c8VisOk = .ok (NewRegistry, []) :=
  ⟨⟨rfl, by decide, by decide⟩,
   c8_panic_characterization.2 NewRegistry c8VisOk rfl (by decide) (by decide)⟩

/-! ### Machine-precision `Get` and `Remove` (claims C3 and C9)

Go's `Get` and `Remove` guard with
`int(entity) >= len(ss.sparse) || ss.sparse[int(entity)] == invalidIndex`
(goecs.go:86, goecs.go:94).  For a handle at or above `2^63` the converted
index is negative, so the first disjunct is false and the short-circuited
second operand indexes the sparse slice with a negative index — a runtime
panic, even though the entity holds no component.  The checked models
return `none` exactly on that panic path. -/

/-- Go `Get` with explicit int64 index semantics: outer `none` models the
panic on a negative sparse index; `some none` is Go's `(nil, false)`. -/
def GetChecked (ss : SparseSet Val) (entity : Nat) : Option (Option Val) :=
  if (ss.sparse.length : Int) ≤ goInt entity then some none
  else if goInt entity < 0 then none
  else if nth ss.sparse (goInt entity).toNat invalidIndex = invalidIndex then
    some none
  else
    some (nthOpt ss.components (nth ss.sparse (goInt entity).toNat invalidIndex).toNat)

/-- Go `Remove` with explicit int64 index semantics: `none` models the
panic on a negative sparse index in the guard. -/
def RemoveChecked (ss : SparseSet Val) (entity : Nat) : Option (SparseSet Val) :=
  if (ss.sparse.length : Int) ≤ goInt entity then some ss
  else if goInt entity < 0 then none
  else if nth ss.sparse (goInt entity).toNat invalidIndex = invalidIndex then
    some ss
  else
    some
      { dense :=
          (ss.dense.set (nth ss.sparse (goInt entity).toNat invalidIndex).toNat
            (nth ss.dense (ss.dense.length - 1) 0)).take (ss.dense.length - 1)
        components :=
          (ss.components.set (nth ss.sparse (goInt entity).toNat invalidIndex).toNat
            (nth ss.components (ss.dense.length - 1) default)).take
            (ss.dense.length - 1)
        sparse :=
          (ss.sparse.set (nth ss.dense (ss.dense.length - 1) 0)
            ((nth ss.sparse (goInt entity).toNat invalidIndex).toNat : Int)).set
            (goInt entity).toNat invalidIndex }

/-- Below `2^63` the machine-precision `Get` agrees with the idealized
model and never panics. -/
theorem getChecked_eq (ss : SparseSet Val) (entity : Nat) (he : entity < 2 ^ 63) :
    GetChecked ss entity = some (ss.Get entity) := by
  have hgoInt : goInt entity = (entity : Int) := by
    unfold goInt
    rw [if_pos he]
  unfold GetChecked SparseSet.Get
  rw [hgoInt, Int.toNat_natCast]
  by_cases h1 : ss.sparse.length ≤ entity
  · rw [if_pos (by exact_mod_cast h1), if_pos (Or.inl h1)]
  · rw [if_neg (by exact_mod_cast h1), if_neg (not_lt.mpr (Int.natCast_nonneg _))]
    by_cases h2 : nth ss.sparse entity invalidIndex = invalidIndex
    · rw [if_pos h2, if_pos (Or.inr h2)]
    · rw [if_neg h2, if_neg (by push_neg; exact ⟨Nat.lt_of_not_le h1, h2⟩)]

/-- Below `2^63` the machine-precision `Remove` agrees with the idealized
model and never panics. -/
theorem removeChecked_eq (ss : SparseSet Val) (entity : Nat) (he : entity < 2 ^ 63) :
    RemoveChecked ss entity = some (ss.Remove entity) := by
  have hgoInt : goInt entity = (entity : Int) := by
    unfold goInt
    rw [if_pos he]
  unfold RemoveChecked
  rw [hgoInt, Int.toNat_natCast]
  by_cases h1 : ss.sparse.length ≤ entity
  · rw [if_pos (by exact_mod_cast h1), remove_eq_noop ss entity (Or.inl h1)]
  · rw [if_neg (by exact_mod_cast h1), if_neg (not_lt.mpr (Int.natCast_nonneg _))]
    by_cases h2 : nth ss.sparse entity invalidIndex = invalidIndex
    · rw [if_pos h2, remove_eq_noop ss entity (Or.inr h2)]
    · rw [if_neg h2, remove_eq_swap ss entity (Nat.lt_of_not_le h1) h2]

/-! ### Claim C3 (corrected) -/

def applyOpChecked (ss : SparseSet Val) (entity : Nat) :
    SSOp → Option (SparseSet Val)
  | .emplace v => EmplaceChecked ss entity v
  | .remove => RemoveChecked ss entity

/-- Run a sequence of machine-precision operations; `none` as soon as any
of them panics. -/
def applyOpsChecked (ss : SparseSet Val) (entity : Nat) :
    List SSOp → Option (SparseSet Val)
  | [] => some ss
  | op :: rest =>
    match applyOpChecked ss entity op with
    | none => none
    | some ss2 => applyOpsChecked ss2 entity rest

theorem applyOpsChecked_eq (entity : Nat) (he : entity + 257 ≤ 2 ^ 63)
    (ops : List SSOp) : ∀ (ss : SparseSet Val),
    applyOpsChecked ss entity ops = some (applyOps ss entity ops) := by
  induction ops with
  | nil => intro ss; rfl
  | cons op rest ih =>
    intro ss
    have hstep : applyOpChecked ss entity op = some (applyOp ss entity op) := by
      cases op with
      | emplace v => exact emplaceChecked_eq_emplace ss entity v he
      | remove => exact removeChecked_eq ss entity (by omega)
    show (match applyOpChecked ss entity op with
          | none => none
          | some ss2 => applyOpsChecked ss2 entity rest) = _
    rw [hstep]
    exact ih (applyOp ss entity op)

/-- C3 counterexample: at the legal 64-bit handle `2^63`, with no operation
performed (the empty sequence on a fresh sparse set), the claim requires
`Get` to return not-found, but the program panics: `int(entity)` is
negative, `int(entity) >= len(ss.sparse)` is false, and the second guard
operand `ss.sparse[int(entity)]` faults (goecs.go:86). -/
theorem c3_counterexample_get_panics_at_2pow63 :
    GetChecked (applyOps (NewSparseSet Val) (2 ^ 63) []) (2 ^ 63) = none ∧
    lastOp ([] : List SSOp) = none ∧ (2 : Nat) ^ 63 < 2 ^ 64 := by
  refine ⟨by decide, rfl, by norm_num⟩

/-- C3 amended: for every entity handle with `entity + 257 ≤ 2^63` — the
range in which `Emplace` cannot overflow (claim C6) and the `Get`/`Remove`
index conversion stays nonnegative — every finite sequence of
`Emplace`/`Remove` operations on that entity runs without panicking, and a
subsequent `Get` returns found with the value of the most recent `Emplace`
when an `Emplace` is the most recent operation, and not-found when a
`Remove` is most recent or no operation occurred.  (For handles at or
above `2^63`, `Get`, `Remove` and `Emplace` all panic on the negative
converted index, as the counterexample shows.) -/
theorem c3_get_reflects_most_recent_op_bounded (ops : List SSOp) (entity : Nat)
    (he : entity + 257 ≤ 2 ^ 63) :
    applyOpsChecked (NewSparseSet Val) entity ops =
      some (applyOps (NewSparseSet Val) entity ops) ∧
    GetChecked (applyOps (NewSparseSet Val) entity ops) entity =
      some (match lastOp ops with
            | some (.emplace v) => some v
            | some .remove => none
            | none => none) := by
  refine ⟨applyOpsChecked_eq entity he ops (NewSparseSet Val), ?_⟩
  rw [getChecked_eq _ _ (by omega)]
  rw [get_applyOps (wf_new Val) entity ops, get_new, lastOpResult_lastOp]

/-- Witness for C3 at entity 3 with the sequence
emplace 5, remove, emplace 7. -/
theorem c3_get_reflects_most_recent_op_bounded_witness :
    (3 + 257 ≤ 2 ^ 63) ∧
    applyOpsChecked (NewSparseSet Val) 3 [SSOp.emplace 5, SSOp.remove, SSOp.emplace 7]
      = some (applyOps (NewSparseSet Val) 3
          [SSOp.emplace 5, SSOp.remove, SSOp.emplace 7]) ∧
    GetChecked (applyOps (NewSparseSet Val) 3
        [SSOp.emplace 5, SSOp.remove, SSOp.emplace 7]) 3 = some (some 7) :=
  ⟨by norm_num,
   (c3_get_reflects_most_recent_op_bounded
     [SSOp.emplace 5, SSOp.remove, SSOp.emplace 7] 3 (by norm_num)).1,
   (c3_get_reflects_most_recent_op_bounded
     [SSOp.emplace 5, SSOp.remove, SSOp.emplace 7] 3 (by norm_num)).2⟩

/-! ### Claim C9 (corrected) -/

/-- Go `RemoveComponent` with the machine-precision `Remove`: `none` when
the underlying `storage.Remove(entity)` panics. -/
def RemoveComponentChecked (r : Registry) (t : TypeKey) (entity : Nat) :
    Option Registry :=
  match r t with
  | none => some r
  | some s =>
    match RemoveChecked s entity with
    | none => none
    | some s2 => some (fun k => if k = t then some s2 else r k)

theorem RemoveComponentChecked_none (r : Registry) (t : TypeKey) (entity : Nat)
    (h : r t = none) : RemoveComponentChecked r t entity = some r := by
  unfold RemoveComponentChecked
  rw [h]

theorem RemoveComponentChecked_some (r : Registry) (t : TypeKey) (entity : Nat)
    (s : SparseSet Val) (h : r t = some s) :
    RemoveComponentChecked r t entity =
      match RemoveChecked s entity with
      | none => none
      | some s2 => some (fun k => if k = t then some s2 else r k) := by
  unfold RemoveComponentChecked
  rw [h]

/-- C9 counterexample: entity `2^63` is a legal 64-bit handle that holds no
component of type A (it is far beyond the sparse capacity), yet with A's
storage present `RemoveComponent` panics instead of being a no-op: the
guard `int(entity) >= len(ss.sparse)` is false for the negative converted
index and `ss.sparse[int(entity)]` faults (goecs.go:94). -/
theorem c9_counterexample_remove_panics_beyond_capacity :
    GetComponent c9Reg 0 (2 ^ 63) = none ∧
    (RemoveComponentChecked c9Reg 0 (2 ^ 63)).isNone = true ∧
    (2 : Nat) ^ 63 < 2 ^ 64 := by
  refine ⟨by decide, by decide, by norm_num⟩

/-- C9 amended: for every entity handle below `2^63`, removing a component
the entity does not hold — never emplaced, already removed, or beyond the
sparse capacity — does not panic and leaves the sparse set and the whole
registry unchanged, so every other lookup is unaffected; when no storage
for the type exists at all, the call is a non-panicking no-op for every
64-bit handle (the lookup fails before any index conversion).  For handles
at or above `2^63` with a storage present, the guard itself panics, as the
counterexample shows.  Concretely, after emplacing A on entity 5, removing
A from entity 3 changes nothing and Get(5) still finds A. -/
theorem c9_remove_absent_noop_bounded :
    (∀ (ss : SparseSet Val) (e : Nat), ss.WF → e < 2 ^ 63 → ss.Get e = none →
      RemoveChecked ss e = some ss) ∧
    (∀ (r : Registry) (t : TypeKey) (e : Nat), Registry.WF r → e < 2 ^ 63 →
      GetComponent r t e = none → RemoveComponentChecked r t e = some r) ∧
    (∀ (r : Registry) (t : TypeKey) (e : Nat), r t = none →
      RemoveComponentChecked r t e = some r) ∧
    RemoveComponentChecked c9Reg 0 3 = some c9Reg ∧
    GetComponent c9Reg 0 5 = some 42 := by
  have hss : ∀ (ss : SparseSet Val) (e : Nat), ss.WF → e < 2 ^ 63 →
      ss.Get e = none → RemoveChecked ss e = some ss := by
    intro ss e hwf he hget
    rw [removeChecked_eq ss e he, remove_of_get_none hwf hget]
  have hreg : ∀ (r : Registry) (t : TypeKey) (e : Nat), Registry.WF r →
      e < 2 ^ 63 → GetComponent r t e = none →
      RemoveComponentChecked r t e = some r := by
    intro r t e hrwf he hget
    cases hrt : r t with
    | none => exact RemoveComponentChecked_none r t e hrt
    | some s =>
      rw [GetComponent_some r t e s hrt] at hget
      rw [RemoveComponentChecked_some r t e s hrt, hss s e (hrwf t s hrt) he hget]
      show some (fun k => if k = t then some s else r k) = some r
      rw [show (fun k => if k = t then some s else r k) = r from
        funext fun k => by
          by_cases hk : k = t
          · rw [if_pos hk, hk, hrt]
          · rw [if_neg hk]]
  exact ⟨hss, hreg,
    fun r t e h => RemoveComponentChecked_none r t e h,
    hreg c9Reg 0 3 c9Reg_wf (by norm_num) (by decide),
    by decide⟩

/-- Witness for C9's universally quantified parts, each at a concrete
input: absent removal on a fresh set, absent removal through the registry,
and removal with no storage at a handle beyond `2^63`. -/
theorem c9_remove_absent_noop_bounded_witness :
    ((NewSparseSet Val).WF ∧ (3 : Nat) < 2 ^ 63 ∧ (NewSparseSet Val).Get 3 = none ∧
      RemoveChecked (NewSparseSet Val) 3 = some (NewSparseSet Val)) ∧
    (Registry.WF c9Reg ∧ GetComponent c9Reg 0 3 = none ∧
      RemoveComponentChecked c9Reg 0 3 = some c9Reg) ∧
    (NewRegistry 0 = none ∧
      RemoveComponentChecked NewRegistry 0 (2 ^ 63) = some NewRegistry) :=
  ⟨⟨by decide, by norm_num, by decide,
    c9_remove_absent_noop_bounded.1 (NewSparseSet Val) 3 (by decide) (by norm_num)
      (by decide)⟩,
   ⟨c9Reg_wf, by decide,
    c9_remove_absent_noop_bounded.2.1 c9Reg 0 3 c9Reg_wf (by norm_num) (by decide)⟩,
   ⟨rfl, c9_remove_absent_noop_bounded.2.2.1 NewRegistry 0 (2 ^ 63) rfl⟩⟩
